import Mathlib

/-
Verification development for the health-journal synchronization server.

The synchronization engine (spec sections 3, 4, 6) is modelled shallowly:
JSON objects become association lists of string keys and simple values,
timestamps become natural numbers (the clock component, which produces the
canonical string form, is modelled separately), and the store becomes a
record of association lists.  The read-only MCP query-validation layer is
translated directly from src/src/journal_mcp/server.py, with Python strings
modelled as lists of characters.
-/

/-- Simple JSON-like value carried in tracker and entry payloads. -/
inductive Val where
  | str : String → Val
  | num : Int → Val
  | bool : Bool → Val
  | null : Val
  deriving DecidableEq, Repr

/-- A JSON object: ordered association list of keys and values. -/
abbrev Fields := List (String × Val)

/-- Modelled from the spec (section 4.3): first value bound to a key. -/
def lookupField : Fields → String → Option Val
  | [], _ => none
  | (k2, v) :: rest, k => if k2 = k then some v else lookupField rest k

/-- Modelled from the spec (section 6): the reserved payload keys. -/
def reservedKeys : List String :=
  [("_baseVersion"), ("_version"), ("_deleted"), ("_lastModifiedBy"), ("_lastModifiedAt")]

/-- Modelled from the spec (section 4.3): reserved keys are stripped from a
payload before storage; all other keys are preserved verbatim. -/
def stripReserved : Fields → Fields
  | [] => []
  | (k, v) :: rest =>
      if k ∈ reservedKeys then stripReserved rest else (k, v) :: stripReserved rest

/-- Modelled from the spec (section 4.4): the incoming expected predecessor
version, with an absent value treated as 0. -/
def baseVersionOf (fs : Fields) : Nat :=
  match lookupField fs ("_baseVersion") with
  | some (Val.num n) => n.toNat
  | _ => 0

/-- Modelled from the spec (section 4.3): the incoming intent-to-delete flag. -/
def deleteFlagOf (fs : Fields) : Bool :=
  match lookupField fs ("_deleted") with
  | some (Val.bool b) => b
  | _ => false

/-- Modelled from the spec (section 3): a stored, versioned tracker record.
The payload holds all non-reserved keys (name, category, type and the
open-ended metadata bag). -/
structure SrvTracker where
  payload : Fields
  version : Nat
  lastModifiedBy : String
  lastModifiedAt : Nat
  deleted : Bool
  deriving DecidableEq, Repr

/-- Modelled from the spec (section 3): a stored, versioned daily entry.
Entries have no soft-delete flag. -/
structure SrvEntry where
  payload : Fields
  version : Nat
  lastModifiedBy : String
  lastModifiedAt : Nat
  deriving DecidableEq, Repr

/-- Modelled from the spec (section 3): one conflict-log row per resolution. -/
structure ConflictRecord where
  entityType : String
  entityId : String
  resolution : String
  clientId : String
  resolvedAt : Option Nat
  deriving DecidableEq, Repr

/-- Modelled from the spec (section 6): the conflict descriptor returned in
update responses. -/
structure ConflictDescriptor where
  entityType : String
  entityId : String
  serverVersion : Nat
  clientBaseVersion : Nat
  serverData : Fields
  deriving DecidableEq, Repr

/-- Modelled from the spec (section 4.1): the persistent store.  Trackers are
keyed by id, entries by the pair (date, trackerId); dates are modelled as day
numbers.  The client registry is omitted: it never affects sync state. -/
structure Store where
  trackers : List (String × SrvTracker)
  entries : List ((Nat × String) × SrvEntry)
  syncMeta : Option Nat
  conflictLog : List ConflictRecord
  deriving DecidableEq, Repr

def emptyStore : Store := ⟨[], [], none, []⟩

/-- First value bound to a key in an association list. -/
def lookupBy {α β : Type} [DecidableEq α] : List (α × β) → α → Option β
  | [], _ => none
  | (k2, v) :: rest, k => if k2 = k then some v else lookupBy rest k

/-- Remove every binding of a key from an association list. -/
def removeKey {α β : Type} [DecidableEq α] : List (α × β) → α → List (α × β)
  | [], _ => []
  | (k2, v) :: rest, k =>
      if k2 = k then removeKey rest k else (k2, v) :: removeKey rest k

def getTracker (s : Store) (id : String) : Option SrvTracker :=
  lookupBy s.trackers id

def putTracker (s : Store) (id : String) (t : SrvTracker) : Store :=
  { s with trackers := (id, t) :: removeKey s.trackers id }

def getEntry (s : Store) (d : Nat) (tid : String) : Option SrvEntry :=
  lookupBy s.entries (d, tid)

def putEntry (s : Store) (d : Nat) (tid : String) (e : SrvEntry) : Store :=
  { s with entries := ((d, tid), e) :: removeKey s.entries (d, tid) }

/-- Modelled from the spec (section 4.4): outcome of the per-entity
compare-and-set decision. -/
inductive Decision where
  | apply : Nat → Bool → Decision
  | conflict : Nat → Decision
  | noop : Decision
  deriving DecidableEq, Repr

/-- Modelled from the spec (section 4.4, decision table).  Inputs: the server
record's (version, deleted flag) when present, the incoming base version and
the incoming delete intent.  Absent server record: insert at version 1, base
ignored.  Soft-deleted server record: a non-delete write resurrects at
version max(current, base) + 1, an incoming delete is an idempotent no-op.
Otherwise: equal versions apply at base + 1, differing versions conflict. -/
def detect (server : Option (Nat × Bool)) (base : Nat) (isDelete : Bool) : Decision :=
  match server with
  | none => Decision.apply 1 isDelete
  | some (v, del) =>
      if del then
        if isDelete then Decision.noop
        else Decision.apply (max v base + 1) false
      else if v = base then Decision.apply (base + 1) isDelete
      else Decision.conflict v

/-- An incoming tracker object in an update batch: client-assigned id plus
the raw fields (which may include reserved keys). -/
structure IncomingTracker where
  id : String
  fields : Fields
  deriving DecidableEq, Repr

/-- Serialized composite identity of an entry, used in conflict descriptors
and in the resolution endpoint. -/
def entryKeyStr (d : Nat) (tid : String) : String :=
  toString d ++ ("|") ++ tid

/-- Per-tracker processing outcome inside one batch. -/
inductive TrackerOutcome where
  | applied : String → SrvTracker → TrackerOutcome
  | conflicted : ConflictDescriptor → TrackerOutcome
  | noop : TrackerOutcome
  deriving DecidableEq, Repr

/-- Per-entry processing outcome inside one batch. -/
inductive EntryOutcome where
  | applied : Nat → String → SrvEntry → EntryOutcome
  | conflicted : ConflictDescriptor → EntryOutcome
  | noop : EntryOutcome
  deriving DecidableEq, Repr

def TrackerOutcome.conflictD : TrackerOutcome → Option ConflictDescriptor
  | TrackerOutcome.conflicted d => some d
  | _ => none

def TrackerOutcome.appliedRec : TrackerOutcome → Option (String × SrvTracker)
  | TrackerOutcome.applied id r => some (id, r)
  | _ => none

def EntryOutcome.conflictD : EntryOutcome → Option ConflictDescriptor
  | EntryOutcome.conflicted d => some d
  | _ => none

def EntryOutcome.appliedRec : EntryOutcome → Option ((Nat × String) × SrvEntry)
  | EntryOutcome.applied d tid e => some ((d, tid), e)
  | _ => none

/-- Modelled from the spec (section 4.5, step 1): process one incoming
tracker.  On apply, the stored record keeps the stripped payload verbatim,
sets the decided version and deleted flag, and stamps the batch client and
the shared batch timestamp.  On conflict, the store is untouched and the
descriptor carries the server version, the client base version and a copy of
the server payload. -/
def stepTracker (cid : String) (now : Nat) (s : Store) (inc : IncomingTracker) :
    Store × TrackerOutcome :=
  match detect ((getTracker s inc.id).map (fun t => (t.version, t.deleted)))
      (baseVersionOf inc.fields) (deleteFlagOf inc.fields) with
  | Decision.apply v dl =>
      (putTracker s inc.id ⟨stripReserved inc.fields, v, cid, now, dl⟩,
       TrackerOutcome.applied inc.id ⟨stripReserved inc.fields, v, cid, now, dl⟩)
  | Decision.conflict v =>
      (s, TrackerOutcome.conflicted
            ⟨("tracker"), inc.id, v, baseVersionOf inc.fields,
             (((getTracker s inc.id).map (fun t => t.payload)).getD [])⟩)
  | Decision.noop => (s, TrackerOutcome.noop)

/-- Modelled from the spec (section 4.5, step 2): process one incoming entry
through the same detector; entries never carry a delete intent. -/
def stepEntry (cid : String) (now : Nat) (s : Store) (d : Nat) (tid : String)
    (fs : Fields) : Store × EntryOutcome :=
  match detect ((getEntry s d tid).map (fun e => (e.version, false)))
      (baseVersionOf fs) false with
  | Decision.apply v _ =>
      (putEntry s d tid ⟨stripReserved fs, v, cid, now⟩,
       EntryOutcome.applied d tid ⟨stripReserved fs, v, cid, now⟩)
  | Decision.conflict v =>
      (s, EntryOutcome.conflicted
            ⟨("entry"), entryKeyStr d tid, v, baseVersionOf fs,
             (((getEntry s d tid).map (fun e => e.payload)).getD [])⟩)
  | Decision.noop => (s, EntryOutcome.noop)

/-- Walk the incoming trackers in input order, each decision seeing the
post-state of the previous ones. -/
def runTrackers (cid : String) (now : Nat) : Store → List IncomingTracker →
    Store × List TrackerOutcome
  | s, [] => (s, [])
  | s, inc :: rest =>
      let p := stepTracker cid now s inc
      let q := runTrackers cid now p.1 rest
      (q.1, p.2 :: q.2)

/-- Walk the flattened (date, trackerId, fields) entry tuples in input order. -/
def runEntries (cid : String) (now : Nat) : Store → List (Nat × String × Fields) →
    Store × List EntryOutcome
  | s, [] => (s, [])
  | s, it :: rest =>
      let p := stepEntry cid now s it.1 it.2.1 it.2.2
      let q := runEntries cid now p.1 rest
      (q.1, p.2 :: q.2)

/-- One batched update request: submitting client, ordered tracker list and
flattened days map. -/
structure Batch where
  clientId : String
  config : List IncomingTracker
  days : List (Nat × String × Fields)
  deriving DecidableEq, Repr

/-- Modelled from the spec (section 6): the body of the update response. -/
structure UpdateResult where
  success : Bool
  conflicts : List ConflictDescriptor
  appliedConfig : List (String × SrvTracker)
  appliedDays : List ((Nat × String) × SrvEntry)
  lastModified : Option Nat
  deriving DecidableEq, Repr

/-- Modelled from the spec (section 4.5): process one batched update. All
writes of the batch share one timestamp; the sync-metadata scalar is set
exactly when at least one put occurred; success is the absence of conflicts
and lastModified is present exactly on success. -/
def processBatch (s : Store) (b : Batch) (now : Nat) : Store × UpdateResult :=
  let pt := runTrackers b.clientId now s b.config
  let pe := runEntries b.clientId now pt.1 b.days
  let conflicts :=
    pt.2.filterMap TrackerOutcome.conflictD ++ pe.2.filterMap EntryOutcome.conflictD
  let appliedC := pt.2.filterMap TrackerOutcome.appliedRec
  let appliedD := pe.2.filterMap EntryOutcome.appliedRec
  let s2 := if appliedC.isEmpty && appliedD.isEmpty then pe.1
            else { pe.1 with syncMeta := some now }
  (s2,
   { success := conflicts.isEmpty
     conflicts := conflicts
     appliedConfig := appliedC
     appliedDays := appliedD
     lastModified := if conflicts.isEmpty then some now else none })

/-- Modelled from the spec (section 4.6): the inclusive lower date bound for
entry visibility, today minus 7 days. -/
def lowerBound (today : Nat) : Nat := today - 7

/-- Modelled from the spec (section 4.7): re-synthesize the reserved keys on
read; all non-reserved payload keys are merged back at the top level. -/
def rehydrateTracker (t : SrvTracker) : Fields :=
  t.payload ++
    [(("_version"), Val.num (Int.ofNat t.version)),
     (("_lastModifiedBy"), Val.str t.lastModifiedBy),
     (("_lastModifiedAt"), Val.num (Int.ofNat t.lastModifiedAt))]

def rehydrateEntry (e : SrvEntry) : Fields :=
  e.payload ++
    [(("_version"), Val.num (Int.ofNat e.version)),
     (("_lastModifiedBy"), Val.str e.lastModifiedBy),
     (("_lastModifiedAt"), Val.num (Int.ofNat e.lastModifiedAt))]

/-- Shape shared by the full and delta snapshot responses. -/
structure Snapshot where
  config : List (String × Fields)
  days : List ((Nat × String) × Fields)
  deletedTrackers : List String
  serverTime : Nat
  deriving DecidableEq, Repr

/-- Modelled from the spec (section 4.7): full snapshot.  Config lists the
non-deleted trackers; days lists the entries whose date is at least the
window lower bound. -/
def fullSnapshot (s : Store) (today now : Nat) : Snapshot :=
  { config := (s.trackers.filter (fun p => !p.2.deleted)).map
      (fun p => (p.1, rehydrateTracker p.2))
    days := (s.entries.filter (fun p => lowerBound today ≤ p.1.1)).map
      (fun p => (p.1, rehydrateEntry p.2))
    deletedTrackers := []
    serverTime := now }

/-- Modelled from the spec (section 4.7): delta snapshot from a cursor.
Config: trackers modified strictly after the cursor and not deleted; days:
entries modified strictly after the cursor and inside the window;
deletedTrackers: ids of tombstones modified strictly after the cursor. -/
def deltaSnapshot (s : Store) (since today now : Nat) : Snapshot :=
  { config := (s.trackers.filter
      (fun p => !p.2.deleted && since < p.2.lastModifiedAt)).map
      (fun p => (p.1, rehydrateTracker p.2))
    days := (s.entries.filter
      (fun p => since < p.2.lastModifiedAt && lowerBound today ≤ p.1.1)).map
      (fun p => (p.1, rehydrateEntry p.2))
    deletedTrackers := (s.trackers.filter
      (fun p => p.2.deleted && since < p.2.lastModifiedAt)).map (fun p => p.1)
    serverTime := now }

/-- Parsed target of the conflict-resolution endpoint; for entries the
endpoint receives the composite id string date|trackerId. -/
inductive EntityKey where
  | tracker : String → EntityKey
  | entry : Nat → String → EntityKey
  deriving DecidableEq, Repr

def EntityKey.typeName : EntityKey → String
  | EntityKey.tracker _ => ("tracker")
  | EntityKey.entry _ _ => ("entry")

def EntityKey.idString : EntityKey → String
  | EntityKey.tracker id => id
  | EntityKey.entry d tid => entryKeyStr d tid

/-- Modelled from the spec (section 4.8): force-apply an operator-chosen
resolution.  Resolution server: append a conflict-log row only, with
resolvedAt set; server state otherwise unchanged.  Resolution client:
overwrite the entity with the supplied payload, increment the version by
one, stamp the client and the clock, and append a conflict-log row; no
conflict detection is consulted.  Unknown resolutions fail. -/
def resolveConflict (s : Store) (key : EntityKey) (resolution : String)
    (clientId : String) (payload : Fields) (now : Nat) : Except String Store :=
  if resolution = ("server") then
    Except.ok { s with conflictLog :=
      s.conflictLog ++ [⟨key.typeName, key.idString, ("server"), clientId, some now⟩] }
  else if resolution = ("client") then
    match key with
    | EntityKey.tracker id =>
        let oldV := match getTracker s id with
          | some t => t.version
          | none => 0
        Except.ok { putTracker s id
            ⟨stripReserved payload, oldV + 1, clientId, now, deleteFlagOf payload⟩ with
          conflictLog :=
            s.conflictLog ++ [⟨("tracker"), id, ("client"), clientId, some now⟩] }
    | EntityKey.entry d tid =>
        let oldV := match getEntry s d tid with
          | some e => e.version
          | none => 0
        Except.ok { putEntry s d tid
            ⟨stripReserved payload, oldV + 1, clientId, now⟩ with
          conflictLog :=
            s.conflictLog ++ [⟨("entry"), entryKeyStr d tid, ("client"), clientId, some now⟩] }
  else Except.error ("unknown resolution")

/-- Modelled from the spec (section 6): the unresolved-conflicts endpoint
returns only conflict rows without a resolvedAt stamp.  The client id
parameter does not influence which unresolved rows are visible. -/
def getConflicts (s : Store) (_clientId : String) : List ConflictRecord :=
  s.conflictLog.filter (fun c => c.resolvedAt.isNone)

/-- One mutating public request applied to the store. -/
inductive Step : Store → Store → Prop where
  | update : ∀ (s : Store) (b : Batch) (now : Nat), Step s (processBatch s b now).1
  | resolve : ∀ (s : Store) (key : EntityKey) (res cid : String) (p : Fields)
      (now : Nat) (s2 : Store),
      resolveConflict s key res cid p now = Except.ok s2 → Step s s2

/-- Server states reachable from a fresh store through the public mutating
endpoints. -/
inductive Reachable : Store → Prop where
  | init : Reachable emptyStore
  | step : ∀ {s s2 : Store}, Reachable s → Step s s2 → Reachable s2

/-- Modelled from the spec (section 4.2): zero-padded two-digit decimal. -/
def pad2Chars (n : Nat) : List Char :=
  [Nat.digitChar (n / 10 % 10), Nat.digitChar (n % 10)]

/-- Modelled from the spec (section 4.2): zero-padded four-digit decimal. -/
def pad4Chars (n : Nat) : List Char :=
  [Nat.digitChar (n / 1000 % 10), Nat.digitChar (n / 100 % 10),
   Nat.digitChar (n / 10 % 10), Nat.digitChar (n % 10)]

/-- Broken-down UTC time, seconds precision. -/
structure DateTimeParts where
  year : Nat
  month : Nat
  day : Nat
  hour : Nat
  minute : Nat
  second : Nat
  deriving DecidableEq, Repr

/-- The characters of the 19-character ISO-8601 core YYYY-MM-DDTHH:MM:SS. -/
def isoChars (d : DateTimeParts) : List Char :=
  pad4Chars d.year ++ [('-')] ++ pad2Chars d.month ++ [('-')] ++
    pad2Chars d.day ++ [('T')] ++ pad2Chars d.hour ++ [(':')] ++
    pad2Chars d.minute ++ [(':')] ++ pad2Chars d.second

/-- The 19-character ISO-8601 core as a string. -/
def isoCore (d : DateTimeParts) : String := String.mk (isoChars d)

/-- Modelled from the spec (section 4.2): get_utc_now, the canonical UTC
timestamp string, the ISO core with a literal trailing Z and no fractional
seconds. -/
def getUtcNow (d : DateTimeParts) : String :=
  String.mk (isoChars d ++ [('Z')])

/-- Modelled from the spec (section 4.2): one clock reading.  The clock keeps
the last issued value; when system time moves backward it returns that value,
otherwise the current system time. -/
def clockTick (last sys : Nat) : Nat :=
  if sys < last then last else sys

/-- Issue one reading per system-time sample, threading the last issued value. -/
def clockRun (last : Nat) : List Nat → List Nat
  | [] => []
  | sys :: rest => clockTick last sys :: clockRun (clockTick last sys) rest

/-- An incoming tracker conflicts against a store exactly when a live
(non-deleted) server record exists whose version differs from the incoming
base version. -/
def conflictsOnB (s : Store) (inc : IncomingTracker) : Bool :=
  match getTracker s inc.id with
  | some t => !t.deleted && t.version != baseVersionOf inc.fields
  | none => false

/-- An incoming entry conflicts exactly when a server record exists whose
version differs from the incoming base version. -/
def entryConflictsOnB (s : Store) (d : Nat) (tid : String) (fs : Fields) : Bool :=
  match getEntry s d tid with
  | some e => e.version != baseVersionOf fs
  | none => false

/-- An incoming tracker is a redundant delete of an already soft-deleted
record (the idempotent-tombstone no-op row of the decision table). -/
def tombstoneDeleteB (s : Store) (inc : IncomingTracker) : Bool :=
  deleteFlagOf inc.fields &&
    (match getTracker s inc.id with
     | some t => t.deleted
     | none => false)

/-
Read-only MCP layer, translated from src/src/journal_mcp/server.py.
Python strings are modelled as lists of characters.
-/

/-- Python str.lower restricted to the ASCII queries at hand. -/
def pyLower (s : List Char) : List Char := s.map Char.toLower

/-- Python str.strip: drop whitespace from both ends. -/
def pyStrip (s : List Char) : List Char :=
  ((s.dropWhile Char.isWhitespace).reverse.dropWhile Char.isWhitespace).reverse

/-- Python str.startswith. -/
def pyStartsWith (s pre : List Char) : Bool := pre.isPrefixOf s

/-- A regex word character: letter, digit or underscore. -/
def isWordChar (c : Char) : Bool := c.isAlphanum || c = '_'

/-- Accumulator pass splitting a text into its maximal word-character runs,
the matches of the regex word pattern used by QueryValidator. -/
def wordsAux : List Char → List Char → List (List Char)
  | [], acc => if acc = [] then [] else [acc.reverse]
  | c :: rest, acc =>
      if isWordChar c then wordsAux rest (c :: acc)
      else if acc = [] then wordsAux rest []
      else acc.reverse :: wordsAux rest []

/-- The word tokens of a query text. -/
def queryWords (s : List Char) : List (List Char) := wordsAux s []

/-- QueryValidator.ALLOWED_STATEMENTS. -/
def allowedStatements : List (List Char) := [("select").data, ("with").data]

/-- QueryValidator.FORBIDDEN_KEYWORDS. -/
def forbiddenKeywords : List (List Char) :=
  [("insert").data, ("update").data, ("delete").data, ("drop").data,
   ("create").data, ("alter").data, ("pragma").data, ("attach").data,
   ("detach").data, ("vacuum").data, ("analyze").data]

/-- Character scan of QueryValidator._contains_multiple_statements: track
single- and double-quote state, report a semicolon seen outside quotes. -/
def multiStmtGo : List Char → Bool → Bool → Bool
  | [], _, _ => false
  | c :: rest, sq, dq =>
      if c = '\x27' && !dq then multiStmtGo rest (!sq) dq
      else if c = '\x22' && !sq then multiStmtGo rest sq (!dq)
      else if c = ';' && !sq && !dq then true
      else multiStmtGo rest sq dq

/-- QueryValidator._contains_multiple_statements. -/
def containsMultipleStatements (sql : List Char) : Bool :=
  multiStmtGo sql false false

/-- QueryValidator.validate_query: reject empty queries, queries whose
lowercased stripped text does not begin with an allowed statement, queries
containing a forbidden keyword as a word anywhere, and queries with a
semicolon outside quotes.  Errors model the raised ValueError. -/
def validateQuery (query : List Char) : Except String Unit :=
  if query.all Char.isWhitespace then
    Except.error ("Query cannot be empty")
  else if !(allowedStatements.any (fun p => pyStartsWith (pyStrip (pyLower query)) p)) then
    Except.error ("Only SELECT, WITH queries are allowed for security")
  else if (queryWords (pyStrip (pyLower query))).any
      (fun w => decide (w ∈ forbiddenKeywords)) then
    Except.error ("Forbidden keywords found")
  else if containsMultipleStatements query then
    Except.error ("Multiple statements not allowed")
  else Except.ok ()

/-- Python str.rstrip with a semicolon argument. -/
def pyRstripSemis (s : List Char) : List Char :=
  (s.reverse.dropWhile (fun c => c = ';')).reverse

/-- QueryValidator.add_row_limit: append a LIMIT clause when none is
present anywhere in the lowercased text. -/
def addRowLimit (query : List Char) (limit : Nat) : List Char :=
  if decide (("limit").data <:+: pyLower query) then query
  else pyRstripSemis query ++ (" LIMIT ").data ++ (toString limit).data

/-- DatabaseManager.execute_safe_query: under strict validation the query is
validated first; only a validated query (with the row limit applied) reaches
the database.  The ok value is the SQL text actually executed. -/
def executeSafeQuery (strict : Bool) (maxRows : Nat) (query : List Char) :
    Except String (List Char) :=
  match (if strict then validateQuery query else Except.ok ()) with
  | Except.error e => Except.error e
  | Except.ok _ => Except.ok (addRowLimit query maxRows)

/-- The tracker payload keys with fixed meaning; every other non-reserved key
belongs to the open-ended metadata bag. -/
def knownTrackerKeys : List String :=
  [("id"), ("name"), ("category"), ("type")]

theorem lookupBy_removeKey_self {α β : Type} [DecidableEq α] (l : List (α × β)) (k : α) :
    lookupBy (removeKey l k) k = none := by
  induction l with
  | nil => rfl
  | cons p rest ih =>
      obtain ⟨k2, v⟩ := p
      by_cases h : k2 = k
      · simpa [removeKey, h] using ih
      · simpa [removeKey, lookupBy, h] using ih

theorem lookupBy_removeKey_ne {α β : Type} [DecidableEq α] (l : List (α × β)) (k j : α)
    (hj : j ≠ k) : lookupBy (removeKey l k) j = lookupBy l j := by
  induction l with
  | nil => rfl
  | cons p rest ih =>
      obtain ⟨k2, v⟩ := p
      by_cases h : k2 = k
      · have h2 : ¬ k = j := fun hh => hj hh.symm
        simp [removeKey, lookupBy, h, h2, ih]
      · by_cases h3 : k2 = j
        · simp [removeKey, lookupBy, h, h3, hj, ih]
        · simp [removeKey, lookupBy, h, h3, ih]

theorem mem_removeKey {α β : Type} [DecidableEq α] (l : List (α × β)) (k : α)
    (p : α × β) (hp : p ∈ removeKey l k) : p ∈ l := by
  induction l with
  | nil => simp [removeKey] at hp
  | cons q rest ih =>
      obtain ⟨k2, v⟩ := q
      by_cases h : k2 = k
      · simp only [removeKey, if_pos h] at hp
        exact List.mem_cons_of_mem _ (ih hp)
      · simp only [removeKey, if_neg h, List.mem_cons] at hp
        rcases hp with hp | hp
        · subst hp
          exact List.mem_cons_self _ _
        · exact List.mem_cons_of_mem _ (ih hp)

theorem getTracker_putTracker_self (s : Store) (id : String) (t : SrvTracker) :
    getTracker (putTracker s id t) id = some t := by
  simp [getTracker, putTracker, lookupBy]

theorem getTracker_putTracker_ne (s : Store) (id j : String) (t : SrvTracker)
    (hj : j ≠ id) : getTracker (putTracker s id t) j = getTracker s j := by
  simp only [getTracker, putTracker, lookupBy]
  rw [if_neg (fun hh => hj hh.symm)]
  exact lookupBy_removeKey_ne _ _ _ hj

theorem getEntry_putEntry_self (s : Store) (d : Nat) (tid : String) (e : SrvEntry) :
    getEntry (putEntry s d tid e) d tid = some e := by
  simp [getEntry, putEntry, lookupBy]

theorem getEntry_putEntry_ne (s : Store) (d : Nat) (tid : String) (d2 : Nat)
    (tid2 : String) (e : SrvEntry) (hj : (d2, tid2) ≠ (d, tid)) :
    getEntry (putEntry s d tid e) d2 tid2 = getEntry s d2 tid2 := by
  simp only [getEntry, putEntry, lookupBy]
  rw [if_neg (fun hh => hj hh.symm)]
  exact lookupBy_removeKey_ne _ _ _ hj

theorem stepTracker_absent (cid : String) (now : Nat) (s : Store) (inc : IncomingTracker)
    (h : getTracker s inc.id = none) :
    stepTracker cid now s inc =
      (putTracker s inc.id ⟨stripReserved inc.fields, 1, cid, now, deleteFlagOf inc.fields⟩,
       TrackerOutcome.applied inc.id
         ⟨stripReserved inc.fields, 1, cid, now, deleteFlagOf inc.fields⟩) := by
  simp [stepTracker, h, detect]

theorem stepTracker_live_apply (cid : String) (now : Nat) (s : Store)
    (inc : IncomingTracker) (t : SrvTracker) (h : getTracker s inc.id = some t)
    (hdel : t.deleted = false) (hv : t.version = baseVersionOf inc.fields) :
    stepTracker cid now s inc =
      (putTracker s inc.id
        ⟨stripReserved inc.fields, baseVersionOf inc.fields + 1, cid, now,
         deleteFlagOf inc.fields⟩,
       TrackerOutcome.applied inc.id
        ⟨stripReserved inc.fields, baseVersionOf inc.fields + 1, cid, now,
         deleteFlagOf inc.fields⟩) := by
  simp [stepTracker, h, detect, hdel, hv]

theorem stepTracker_live_conflict (cid : String) (now : Nat) (s : Store)
    (inc : IncomingTracker) (t : SrvTracker) (h : getTracker s inc.id = some t)
    (hdel : t.deleted = false) (hv : t.version ≠ baseVersionOf inc.fields) :
    stepTracker cid now s inc =
      (s, TrackerOutcome.conflicted
            ⟨("tracker"), inc.id, t.version, baseVersionOf inc.fields, t.payload⟩) := by
  simp [stepTracker, h, detect, hdel, hv]

theorem stepTracker_dead_write (cid : String) (now : Nat) (s : Store)
    (inc : IncomingTracker) (t : SrvTracker) (h : getTracker s inc.id = some t)
    (hdel : t.deleted = true) (hflag : deleteFlagOf inc.fields = false) :
    stepTracker cid now s inc =
      (putTracker s inc.id
        ⟨stripReserved inc.fields, max t.version (baseVersionOf inc.fields) + 1, cid, now,
         false⟩,
       TrackerOutcome.applied inc.id
        ⟨stripReserved inc.fields, max t.version (baseVersionOf inc.fields) + 1, cid, now,
         false⟩) := by
  simp [stepTracker, h, detect, hdel, hflag]

theorem stepTracker_dead_delete (cid : String) (now : Nat) (s : Store)
    (inc : IncomingTracker) (t : SrvTracker) (h : getTracker s inc.id = some t)
    (hdel : t.deleted = true) (hflag : deleteFlagOf inc.fields = true) :
    stepTracker cid now s inc = (s, TrackerOutcome.noop) := by
  simp [stepTracker, h, detect, hdel, hflag]

theorem stepEntry_absent (cid : String) (now : Nat) (s : Store) (d : Nat)
    (tid : String) (fs : Fields) (h : getEntry s d tid = none) :
    stepEntry cid now s d tid fs =
      (putEntry s d tid ⟨stripReserved fs, 1, cid, now⟩,
       EntryOutcome.applied d tid ⟨stripReserved fs, 1, cid, now⟩) := by
  simp [stepEntry, h, detect]

theorem stepEntry_some_apply (cid : String) (now : Nat) (s : Store) (d : Nat)
    (tid : String) (fs : Fields) (e : SrvEntry) (h : getEntry s d tid = some e)
    (hv : e.version = baseVersionOf fs) :
    stepEntry cid now s d tid fs =
      (putEntry s d tid ⟨stripReserved fs, baseVersionOf fs + 1, cid, now⟩,
       EntryOutcome.applied d tid ⟨stripReserved fs, baseVersionOf fs + 1, cid, now⟩) := by
  simp [stepEntry, h, detect, hv]

theorem stepEntry_some_conflict (cid : String) (now : Nat) (s : Store) (d : Nat)
    (tid : String) (fs : Fields) (e : SrvEntry) (h : getEntry s d tid = some e)
    (hv : e.version ≠ baseVersionOf fs) :
    stepEntry cid now s d tid fs =
      (s, EntryOutcome.conflicted
            ⟨("entry"), entryKeyStr d tid, e.version, baseVersionOf fs, e.payload⟩) := by
  simp [stepEntry, h, detect, hv]

theorem stepTracker_entries (cid : String) (now : Nat) (s : Store)
    (inc : IncomingTracker) : (stepTracker cid now s inc).1.entries = s.entries := by
  unfold stepTracker
  split <;> rfl

theorem stepTracker_conflictLog (cid : String) (now : Nat) (s : Store)
    (inc : IncomingTracker) : (stepTracker cid now s inc).1.conflictLog = s.conflictLog := by
  unfold stepTracker
  split <;> rfl

theorem stepEntry_trackers (cid : String) (now : Nat) (s : Store) (d : Nat)
    (tid : String) (fs : Fields) : (stepEntry cid now s d tid fs).1.trackers = s.trackers := by
  unfold stepEntry
  split <;> rfl

theorem stepEntry_conflictLog (cid : String) (now : Nat) (s : Store) (d : Nat)
    (tid : String) (fs : Fields) :
    (stepEntry cid now s d tid fs).1.conflictLog = s.conflictLog := by
  unfold stepEntry
  split <;> rfl

theorem getTracker_stepTracker_ne (cid : String) (now : Nat) (s : Store)
    (inc : IncomingTracker) (j : String) (hj : j ≠ inc.id) :
    getTracker (stepTracker cid now s inc).1 j = getTracker s j := by
  unfold stepTracker
  split
  · exact getTracker_putTracker_ne _ _ _ _ hj
  · rfl
  · rfl

theorem getEntry_stepEntry_ne (cid : String) (now : Nat) (s : Store) (d : Nat)
    (tid : String) (fs : Fields) (d2 : Nat) (tid2 : String)
    (hj : (d2, tid2) ≠ (d, tid)) :
    getEntry (stepEntry cid now s d tid fs).1 d2 tid2 = getEntry s d2 tid2 := by
  unfold stepEntry
  split
  · exact getEntry_putEntry_ne _ _ _ _ _ _ hj
  · rfl
  · rfl

theorem stepTracker_outcome_congr (cid : String) (now : Nat) (s1 s2 : Store)
    (inc : IncomingTracker) (h : getTracker s1 inc.id = getTracker s2 inc.id) :
    (stepTracker cid now s1 inc).2 = (stepTracker cid now s2 inc).2 := by
  unfold stepTracker
  rw [h]
  split <;> rfl

theorem stepEntry_outcome_congr (cid : String) (now : Nat) (s1 s2 : Store) (d : Nat)
    (tid : String) (fs : Fields) (h : getEntry s1 d tid = getEntry s2 d tid) :
    (stepEntry cid now s1 d tid fs).2 = (stepEntry cid now s2 d tid fs).2 := by
  unfold stepEntry
  rw [h]
  split <;> rfl

theorem stepTracker_cases (cid : String) (now : Nat) (s : Store) (inc : IncomingTracker) :
    (∃ r, stepTracker cid now s inc =
        (putTracker s inc.id r, TrackerOutcome.applied inc.id r)) ∨
    (∃ dsc, stepTracker cid now s inc = (s, TrackerOutcome.conflicted dsc)) ∨
    stepTracker cid now s inc = (s, TrackerOutcome.noop) := by
  rcases h : getTracker s inc.id with _ | t
  · exact Or.inl ⟨_, stepTracker_absent cid now s inc h⟩
  · rcases hdel : t.deleted
    · by_cases hv : t.version = baseVersionOf inc.fields
      · exact Or.inl ⟨_, stepTracker_live_apply cid now s inc t h hdel hv⟩
      · exact Or.inr (Or.inl ⟨_, stepTracker_live_conflict cid now s inc t h hdel hv⟩)
    · rcases hflag : deleteFlagOf inc.fields
      · exact Or.inl ⟨_, stepTracker_dead_write cid now s inc t h hdel hflag⟩
      · exact Or.inr (Or.inr (stepTracker_dead_delete cid now s inc t h hdel hflag))

theorem stepEntry_cases (cid : String) (now : Nat) (s : Store) (d : Nat) (tid : String)
    (fs : Fields) :
    (∃ e, stepEntry cid now s d tid fs =
        (putEntry s d tid e, EntryOutcome.applied d tid e)) ∨
    (∃ dsc, stepEntry cid now s d tid fs = (s, EntryOutcome.conflicted dsc)) := by
  rcases h : getEntry s d tid with _ | e
  · exact Or.inl ⟨_, stepEntry_absent cid now s d tid fs h⟩
  · by_cases hv : e.version = baseVersionOf fs
    · exact Or.inl ⟨_, stepEntry_some_apply cid now s d tid fs e h hv⟩
    · exact Or.inr ⟨_, stepEntry_some_conflict cid now s d tid fs e h hv⟩

theorem getTracker_stepTracker_applied (cid : String) (now : Nat) (s : Store)
    (inc : IncomingTracker) (i : String) (r : SrvTracker)
    (h : (stepTracker cid now s inc).2 = TrackerOutcome.applied i r) :
    i = inc.id ∧ getTracker (stepTracker cid now s inc).1 inc.id = some r := by
  rcases stepTracker_cases cid now s inc with ⟨r0, he⟩ | ⟨dsc, he⟩ | he
  · rw [he] at h ⊢
    simp only [TrackerOutcome.applied.injEq] at h
    obtain ⟨h1, h2⟩ := h
    subst h2
    exact ⟨h1.symm, getTracker_putTracker_self s inc.id r0⟩
  · rw [he] at h
    simp at h
  · rw [he] at h
    simp at h

theorem getTracker_stepTracker_unapplied (cid : String) (now : Nat) (s : Store)
    (inc : IncomingTracker)
    (h : ∀ i r, (stepTracker cid now s inc).2 ≠ TrackerOutcome.applied i r) :
    getTracker (stepTracker cid now s inc).1 inc.id = getTracker s inc.id := by
  rcases stepTracker_cases cid now s inc with ⟨r0, he⟩ | ⟨dsc, he⟩ | he
  · exact absurd (by rw [he]) (h inc.id r0)
  · rw [he]
  · rw [he]

theorem getEntry_stepEntry_applied (cid : String) (now : Nat) (s : Store) (d : Nat)
    (tid : String) (fs : Fields) (d2 : Nat) (tid2 : String) (e : SrvEntry)
    (h : (stepEntry cid now s d tid fs).2 = EntryOutcome.applied d2 tid2 e) :
    d2 = d ∧ tid2 = tid ∧ getEntry (stepEntry cid now s d tid fs).1 d tid = some e := by
  rcases stepEntry_cases cid now s d tid fs with ⟨e0, he⟩ | ⟨dsc, he⟩
  · rw [he] at h ⊢
    simp only [EntryOutcome.applied.injEq] at h
    obtain ⟨h1, h2, h3⟩ := h
    subst h3
    exact ⟨h1.symm, h2.symm, getEntry_putEntry_self s d tid e0⟩
  · rw [he] at h
    simp at h

theorem getEntry_stepEntry_unapplied (cid : String) (now : Nat) (s : Store) (d : Nat)
    (tid : String) (fs : Fields)
    (h : ∀ d2 tid2 e, (stepEntry cid now s d tid fs).2 ≠ EntryOutcome.applied d2 tid2 e) :
    getEntry (stepEntry cid now s d tid fs).1 d tid = getEntry s d tid := by
  rcases stepEntry_cases cid now s d tid fs with ⟨e0, he⟩ | ⟨dsc, he⟩
  · exact absurd (by rw [he]) (h d tid e0)
  · rw [he]

theorem runTrackers_entries (cid : String) (now : Nat) (l : List IncomingTracker)
    (s : Store) : (runTrackers cid now s l).1.entries = s.entries := by
  induction l generalizing s with
  | nil => rfl
  | cons inc rest ih =>
      simp only [runTrackers]
      rw [ih, stepTracker_entries]

theorem runTrackers_conflictLog (cid : String) (now : Nat) (l : List IncomingTracker)
    (s : Store) : (runTrackers cid now s l).1.conflictLog = s.conflictLog := by
  induction l generalizing s with
  | nil => rfl
  | cons inc rest ih =>
      simp only [runTrackers]
      rw [ih, stepTracker_conflictLog]

theorem runEntries_trackers (cid : String) (now : Nat) (l : List (Nat × String × Fields))
    (s : Store) : (runEntries cid now s l).1.trackers = s.trackers := by
  induction l generalizing s with
  | nil => rfl
  | cons it rest ih =>
      simp only [runEntries]
      rw [ih, stepEntry_trackers]

theorem runEntries_conflictLog (cid : String) (now : Nat) (l : List (Nat × String × Fields))
    (s : Store) : (runEntries cid now s l).1.conflictLog = s.conflictLog := by
  induction l generalizing s with
  | nil => rfl
  | cons it rest ih =>
      simp only [runEntries]
      rw [ih, stepEntry_conflictLog]

theorem getTracker_runEntries (cid : String) (now : Nat) (l : List (Nat × String × Fields))
    (s : Store) (j : String) :
    getTracker (runEntries cid now s l).1 j = getTracker s j := by
  unfold getTracker
  rw [runEntries_trackers]

theorem getEntry_runTrackers (cid : String) (now : Nat) (l : List IncomingTracker)
    (s : Store) (d : Nat) (tid : String) :
    getEntry (runTrackers cid now s l).1 d tid = getEntry s d tid := by
  unfold getEntry
  rw [runTrackers_entries]

theorem getTracker_runTrackers_notMem (cid : String) (now : Nat)
    (l : List IncomingTracker) (s : Store) (j : String)
    (hj : j ∉ l.map (fun i => i.id)) :
    getTracker (runTrackers cid now s l).1 j = getTracker s j := by
  induction l generalizing s with
  | nil => rfl
  | cons inc rest ih =>
      simp only [List.map_cons, List.mem_cons, not_or] at hj
      simp only [runTrackers]
      rw [ih _ hj.2, getTracker_stepTracker_ne _ _ _ _ _ hj.1]

theorem getEntry_runEntries_notMem (cid : String) (now : Nat)
    (l : List (Nat × String × Fields)) (s : Store) (d : Nat) (tid : String)
    (hj : (d, tid) ∉ l.map (fun it => (it.1, it.2.1))) :
    getEntry (runEntries cid now s l).1 d tid = getEntry s d tid := by
  induction l generalizing s with
  | nil => rfl
  | cons it rest ih =>
      simp only [List.map_cons, List.mem_cons, not_or] at hj
      simp only [runEntries]
      rw [ih _ hj.2, getEntry_stepEntry_ne _ _ _ _ _ _ _ _ hj.1]

theorem runTrackers_outcomes (cid : String) (now : Nat) (l : List IncomingTracker)
    (s : Store) (hnd : (l.map (fun i => i.id)).Nodup) :
    (runTrackers cid now s l).2 = l.map (fun inc => (stepTracker cid now s inc).2) := by
  induction l generalizing s with
  | nil => rfl
  | cons inc rest ih =>
      simp only [List.map_cons, List.nodup_cons] at hnd
      simp only [runTrackers, List.map_cons, List.cons.injEq]
      refine ⟨trivial, ?_⟩
      rw [ih _ hnd.2]
      apply List.map_congr_left
      intro inc2 h2
      apply stepTracker_outcome_congr
      apply getTracker_stepTracker_ne
      intro he
      exact hnd.1 (he ▸ List.mem_map_of_mem (fun i => i.id) h2)

theorem runEntries_outcomes (cid : String) (now : Nat) (l : List (Nat × String × Fields))
    (s : Store) (hnd : (l.map (fun it => (it.1, it.2.1))).Nodup) :
    (runEntries cid now s l).2 =
      l.map (fun it => (stepEntry cid now s it.1 it.2.1 it.2.2).2) := by
  induction l generalizing s with
  | nil => rfl
  | cons it rest ih =>
      simp only [List.map_cons, List.nodup_cons] at hnd
      simp only [runEntries, List.map_cons, List.cons.injEq]
      refine ⟨trivial, ?_⟩
      rw [ih _ hnd.2]
      apply List.map_congr_left
      intro it2 h2
      apply stepEntry_outcome_congr
      apply getEntry_stepEntry_ne
      intro he
      exact hnd.1 (he ▸ List.mem_map_of_mem (fun it => (it.1, it.2.1)) h2)

theorem getTracker_runTrackers_mem (cid : String) (now : Nat)
    (l : List IncomingTracker) (s : Store)
    (hnd : (l.map (fun i => i.id)).Nodup) (inc : IncomingTracker) (hm : inc ∈ l) :
    (∀ i r, (stepTracker cid now s inc).2 = TrackerOutcome.applied i r →
       getTracker (runTrackers cid now s l).1 inc.id = some r) ∧
    ((∀ i r, (stepTracker cid now s inc).2 ≠ TrackerOutcome.applied i r) →
       getTracker (runTrackers cid now s l).1 inc.id = getTracker s inc.id) := by
  induction l generalizing s with
  | nil => cases hm
  | cons inc0 rest ih =>
      simp only [List.map_cons, List.nodup_cons] at hnd
      rcases List.mem_cons.mp hm with he | hm2
      · subst he
        have hframe := getTracker_runTrackers_notMem cid now rest
          (stepTracker cid now s inc).1 inc.id hnd.1
        constructor
        · intro i r h
          simp only [runTrackers]
          rw [hframe]
          exact (getTracker_stepTracker_applied cid now s inc i r h).2
        · intro h
          simp only [runTrackers]
          rw [hframe]
          exact getTracker_stepTracker_unapplied cid now s inc h
      · have hne : inc.id ≠ inc0.id := fun he2 =>
          hnd.1 (he2 ▸ List.mem_map_of_mem (fun i => i.id) hm2)
        have hget : getTracker (stepTracker cid now s inc0).1 inc.id = getTracker s inc.id :=
          getTracker_stepTracker_ne cid now s inc0 inc.id hne
        have hout : (stepTracker cid now (stepTracker cid now s inc0).1 inc).2 =
            (stepTracker cid now s inc).2 :=
          stepTracker_outcome_congr cid now _ _ inc hget
        obtain ⟨ih1, ih2⟩ := ih (stepTracker cid now s inc0).1 hnd.2 hm2
        constructor
        · intro i r h
          simp only [runTrackers]
          exact ih1 i r (hout.trans h)
        · intro h
          simp only [runTrackers]
          rw [ih2 (fun i r hh => h i r (hout.symm.trans hh))]
          exact hget

theorem getEntry_runEntries_mem (cid : String) (now : Nat)
    (l : List (Nat × String × Fields)) (s : Store)
    (hnd : (l.map (fun it => (it.1, it.2.1))).Nodup) (it : Nat × String × Fields)
    (hm : it ∈ l) :
    (∀ d2 tid2 e, (stepEntry cid now s it.1 it.2.1 it.2.2).2 = EntryOutcome.applied d2 tid2 e →
       getEntry (runEntries cid now s l).1 it.1 it.2.1 = some e) ∧
    ((∀ d2 tid2 e, (stepEntry cid now s it.1 it.2.1 it.2.2).2 ≠ EntryOutcome.applied d2 tid2 e) →
       getEntry (runEntries cid now s l).1 it.1 it.2.1 = getEntry s it.1 it.2.1) := by
  induction l generalizing s with
  | nil => cases hm
  | cons it0 rest ih =>
      simp only [List.map_cons, List.nodup_cons] at hnd
      rcases List.mem_cons.mp hm with he | hm2
      · subst he
        have hframe := getEntry_runEntries_notMem cid now rest
          (stepEntry cid now s it.1 it.2.1 it.2.2).1 it.1 it.2.1 hnd.1
        constructor
        · intro d2 tid2 e h
          simp only [runEntries]
          rw [hframe]
          exact (getEntry_stepEntry_applied cid now s it.1 it.2.1 it.2.2 d2 tid2 e h).2.2
        · intro h
          simp only [runEntries]
          rw [hframe]
          exact getEntry_stepEntry_unapplied cid now s it.1 it.2.1 it.2.2 h
      · have hne : (it.1, it.2.1) ≠ (it0.1, it0.2.1) := fun he2 =>
          hnd.1 (he2 ▸ List.mem_map_of_mem (fun it2 => (it2.1, it2.2.1)) hm2)
        have hget : getEntry (stepEntry cid now s it0.1 it0.2.1 it0.2.2).1 it.1 it.2.1 =
            getEntry s it.1 it.2.1 :=
          getEntry_stepEntry_ne cid now s it0.1 it0.2.1 it0.2.2 it.1 it.2.1 hne
        have hout : (stepEntry cid now (stepEntry cid now s it0.1 it0.2.1 it0.2.2).1
              it.1 it.2.1 it.2.2).2 = (stepEntry cid now s it.1 it.2.1 it.2.2).2 :=
          stepEntry_outcome_congr cid now _ _ it.1 it.2.1 it.2.2 hget
        obtain ⟨ih1, ih2⟩ := ih (stepEntry cid now s it0.1 it0.2.1 it0.2.2).1 hnd.2 hm2
        constructor
        · intro d2 tid2 e h
          simp only [runEntries]
          exact ih1 d2 tid2 e (hout.trans h)
        · intro h
          simp only [runEntries]
          rw [ih2 (fun d2 tid2 e hh => h d2 tid2 e (hout.symm.trans hh))]
          exact hget

theorem countP_filterMap {α β : Type} (p : β → Bool) (h : α → Option β) (l : List α) :
    (l.filterMap h).countP p = l.countP (fun a => ((h a).map p).getD false) := by
  induction l with
  | nil => rfl
  | cons a rest ih =>
      rcases hh : h a with _ | b
      · simp [List.filterMap_cons, hh, ih, List.countP_cons]
      · by_cases hp : p b
        · simp [List.filterMap_cons, hh, ih, List.countP_cons, hp]
        · simp [List.filterMap_cons, hh, ih, List.countP_cons, hp]

theorem countP_eq_count_map {α β : Type} [DecidableEq β] (f : α → β) (x : β)
    (l : List α) : l.countP (fun a => f a == x) = (l.map f).count x := by
  induction l with
  | nil => rfl
  | cons a rest ih =>
      simp [List.countP_cons, List.count_cons, ih]

theorem processBatch_getTracker (s : Store) (b : Batch) (now : Nat) (j : String) :
    getTracker (processBatch s b now).1 j =
      getTracker (runTrackers b.clientId now s b.config).1 j := by
  simp only [processBatch]
  split <;> exact getTracker_runEntries _ _ _ _ _

theorem processBatch_getEntry (s : Store) (b : Batch) (now : Nat) (d : Nat) (tid : String) :
    getEntry (processBatch s b now).1 d tid =
      getEntry (runEntries b.clientId now
        (runTrackers b.clientId now s b.config).1 b.days).1 d tid := by
  simp only [processBatch]
  split <;> rfl

theorem processBatch_conflictLog (s : Store) (b : Batch) (now : Nat) :
    (processBatch s b now).1.conflictLog = s.conflictLog := by
  simp only [processBatch]
  split <;>
    exact (runEntries_conflictLog _ _ _ _).trans (runTrackers_conflictLog _ _ _ _)

theorem processBatch_conflicts (s : Store) (b : Batch) (now : Nat) :
    (processBatch s b now).2.conflicts =
      (runTrackers b.clientId now s b.config).2.filterMap TrackerOutcome.conflictD ++
      (runEntries b.clientId now (runTrackers b.clientId now s b.config).1 b.days).2.filterMap
        EntryOutcome.conflictD := rfl

theorem processBatch_appliedConfig (s : Store) (b : Batch) (now : Nat) :
    (processBatch s b now).2.appliedConfig =
      (runTrackers b.clientId now s b.config).2.filterMap TrackerOutcome.appliedRec := rfl

theorem processBatch_appliedDays (s : Store) (b : Batch) (now : Nat) :
    (processBatch s b now).2.appliedDays =
      (runEntries b.clientId now
        (runTrackers b.clientId now s b.config).1 b.days).2.filterMap
        EntryOutcome.appliedRec := rfl

theorem processBatch_success (s : Store) (b : Batch) (now : Nat) :
    (processBatch s b now).2.success = (processBatch s b now).2.conflicts.isEmpty := rfl

theorem processBatch_lastModified (s : Store) (b : Batch) (now : Nat) :
    (processBatch s b now).2.lastModified =
      (if (processBatch s b now).2.conflicts.isEmpty then some now else none) := rfl

theorem stepTracker_conflictD_some (cid : String) (now : Nat) (s : Store)
    (inc : IncomingTracker) (ht : conflictsOnB s inc = true) :
    ∃ t, getTracker s inc.id = some t ∧ t.deleted = false ∧
      t.version ≠ baseVersionOf inc.fields ∧
      (stepTracker cid now s inc).2 = TrackerOutcome.conflicted
        ⟨("tracker"), inc.id, t.version, baseVersionOf inc.fields, t.payload⟩ := by
  unfold conflictsOnB at ht
  rcases h : getTracker s inc.id with _ | t
  · rw [h] at ht
    cases ht
  · rw [h] at ht
    simp only [Bool.and_eq_true, Bool.not_eq_true', bne_iff_ne, ne_eq] at ht
    exact ⟨t, rfl, ht.1, ht.2,
      by rw [stepTracker_live_conflict cid now s inc t h ht.1 ht.2]⟩

theorem stepTracker_applied_of_not_conflict (cid : String) (now : Nat) (s : Store)
    (inc : IncomingTracker) (ht : conflictsOnB s inc = false)
    (hn : tombstoneDeleteB s inc = false) :
    ∃ r, (stepTracker cid now s inc).2 = TrackerOutcome.applied inc.id r := by
  unfold conflictsOnB at ht
  unfold tombstoneDeleteB at hn
  rcases h : getTracker s inc.id with _ | t
  · exact ⟨_, by rw [stepTracker_absent cid now s inc h]⟩
  · rw [h] at ht hn
    have ht2 : (!t.deleted && t.version != baseVersionOf inc.fields) = false := ht
    have hn2 : (deleteFlagOf inc.fields && t.deleted) = false := hn
    rcases hdel : t.deleted
    · rw [hdel] at ht2
      simp only [Bool.not_false, Bool.true_and, bne_eq_false_iff_eq] at ht2
      exact ⟨_, by rw [stepTracker_live_apply cid now s inc t h hdel ht2]⟩
    · rw [hdel, Bool.and_true] at hn2
      exact ⟨_, by rw [stepTracker_dead_write cid now s inc t h hdel hn2]⟩

theorem stepEntry_conflictD_some (cid : String) (now : Nat) (s : Store) (d : Nat)
    (tid : String) (fs : Fields) (ht : entryConflictsOnB s d tid fs = true) :
    ∃ e, getEntry s d tid = some e ∧ e.version ≠ baseVersionOf fs ∧
      (stepEntry cid now s d tid fs).2 = EntryOutcome.conflicted
        ⟨("entry"), entryKeyStr d tid, e.version, baseVersionOf fs, e.payload⟩ := by
  unfold entryConflictsOnB at ht
  rcases h : getEntry s d tid with _ | e
  · rw [h] at ht
    cases ht
  · rw [h] at ht
    simp only [bne_iff_ne, ne_eq] at ht
    exact ⟨e, rfl, ht, by rw [stepEntry_some_conflict cid now s d tid fs e h ht]⟩

theorem stepEntry_applied_of_not_conflict (cid : String) (now : Nat) (s : Store)
    (d : Nat) (tid : String) (fs : Fields) (ht : entryConflictsOnB s d tid fs = false) :
    ∃ e, (stepEntry cid now s d tid fs).2 = EntryOutcome.applied d tid e := by
  unfold entryConflictsOnB at ht
  rcases h : getEntry s d tid with _ | e
  · exact ⟨_, by rw [stepEntry_absent cid now s d tid fs h]⟩
  · rw [h] at ht
    simp only [bne_eq_false_iff_eq] at ht
    exact ⟨_, by rw [stepEntry_some_apply cid now s d tid fs e h ht]⟩

theorem lookupField_stripReserved (f : Fields) (k : String) (hk : k ∉ reservedKeys) :
    lookupField (stripReserved f) k = lookupField f k := by
  induction f with
  | nil => rfl
  | cons p rest ih =>
      obtain ⟨k2, v⟩ := p
      by_cases h : k2 ∈ reservedKeys
      · have h2 : ¬ k2 = k := fun he => hk (he ▸ h)
        simp [stripReserved, lookupField, h, h2, ih]
      · by_cases h3 : k2 = k
        · simp [stripReserved, lookupField, h, h3, hk]
        · simp [stripReserved, lookupField, h, h3, ih]

theorem lookupField_append (f g : Fields) (k : String) :
    lookupField (f ++ g) k =
      match lookupField f k with
      | some v => some v
      | none => lookupField g k := by
  induction f with
  | nil => rfl
  | cons p rest ih =>
      obtain ⟨k2, v⟩ := p
      by_cases h : k2 = k <;> simp [lookupField, h, ih]

theorem lookupField_rehydrateTracker (t : SrvTracker) (k : String)
    (hk : k ∉ reservedKeys) :
    lookupField (rehydrateTracker t) k = lookupField t.payload k := by
  simp only [reservedKeys, List.mem_cons, List.not_mem_nil, or_false, not_or] at hk
  obtain ⟨h1, h2, h3, h4, h5⟩ := hk
  rw [rehydrateTracker, lookupField_append]
  cases h : lookupField t.payload k
  · have e2 : ¬ (("_version") : String) = k := fun he => h2 he.symm
    have e4 : ¬ (("_lastModifiedBy") : String) = k := fun he => h4 he.symm
    have e5 : ¬ (("_lastModifiedAt") : String) = k := fun he => h5 he.symm
    simp [lookupField, e2, e4, e5]
  · simp

theorem stepTracker_applied_fst (cid : String) (now : Nat) (s : Store)
    (inc : IncomingTracker) (i : String) (r : SrvTracker)
    (h : (stepTracker cid now s inc).2 = TrackerOutcome.applied i r) :
    (stepTracker cid now s inc).1 = putTracker s inc.id r := by
  rcases stepTracker_cases cid now s inc with ⟨r0, he⟩ | ⟨dsc, he⟩ | he
  · rw [he] at h ⊢
    simp only [TrackerOutcome.applied.injEq] at h
    rw [h.2]
  · rw [he] at h
    simp at h
  · rw [he] at h
    simp at h

theorem stepTracker_applied_fields (cid : String) (now : Nat) (s : Store)
    (inc : IncomingTracker) (i : String) (r : SrvTracker)
    (h : (stepTracker cid now s inc).2 = TrackerOutcome.applied i r) :
    r.payload = stripReserved inc.fields ∧ r.lastModifiedBy = cid ∧
    r.lastModifiedAt = now ∧
    (deleteFlagOf inc.fields = false → r.deleted = false) := by
  rcases hsrv : getTracker s inc.id with _ | t
  · rw [stepTracker_absent cid now s inc hsrv] at h
    simp only [TrackerOutcome.applied.injEq] at h
    rw [← h.2]
    exact ⟨rfl, rfl, rfl, fun hf => hf⟩
  · rcases hdel : t.deleted
    · by_cases hv : t.version = baseVersionOf inc.fields
      · rw [stepTracker_live_apply cid now s inc t hsrv hdel hv] at h
        simp only [TrackerOutcome.applied.injEq] at h
        rw [← h.2]
        exact ⟨rfl, rfl, rfl, fun hf => hf⟩
      · rw [stepTracker_live_conflict cid now s inc t hsrv hdel hv] at h
        simp at h
    · rcases hflag : deleteFlagOf inc.fields
      · rw [stepTracker_dead_write cid now s inc t hsrv hdel hflag] at h
        simp only [TrackerOutcome.applied.injEq] at h
        rw [← h.2]
        exact ⟨rfl, rfl, rfl, fun _ => rfl⟩
      · rw [stepTracker_dead_delete cid now s inc t hsrv hdel hflag] at h
        simp at h

theorem stepTracker_applied_version (cid : String) (now : Nat) (s : Store)
    (inc : IncomingTracker) (i : String) (r : SrvTracker)
    (h : (stepTracker cid now s inc).2 = TrackerOutcome.applied i r) :
    (getTracker s inc.id = none → r.version = 1) ∧
    (∀ t, getTracker s inc.id = some t → t.version < r.version) := by
  rcases hsrv : getTracker s inc.id with _ | t
  · rw [stepTracker_absent cid now s inc hsrv] at h
    simp only [TrackerOutcome.applied.injEq] at h
    rw [← h.2]
    exact ⟨fun _ => rfl, fun t ht => by cases ht⟩
  · refine ⟨fun hn => ?_, fun t2 ht2 => ?_⟩
    · exact Option.noConfusion hn
    have ht : t2 = t := (Option.some.inj ht2).symm
    subst ht
    rcases hdel : t2.deleted
    · by_cases hv : t2.version = baseVersionOf inc.fields
      · rw [stepTracker_live_apply cid now s inc t2 hsrv hdel hv] at h
        simp only [TrackerOutcome.applied.injEq] at h
        rw [← h.2]
        exact lt_of_le_of_lt (le_of_eq hv) (Nat.lt_succ_self _)
      · rw [stepTracker_live_conflict cid now s inc t2 hsrv hdel hv] at h
        simp at h
    · rcases hflag : deleteFlagOf inc.fields
      · rw [stepTracker_dead_write cid now s inc t2 hsrv hdel hflag] at h
        simp only [TrackerOutcome.applied.injEq] at h
        rw [← h.2]
        exact Nat.lt_succ_of_le (Nat.le_max_left _ _)
      · rw [stepTracker_dead_delete cid now s inc t2 hsrv hdel hflag] at h
        simp at h

theorem stepEntry_applied_version (cid : String) (now : Nat) (s : Store) (d : Nat)
    (tid : String) (fs : Fields) (d2 : Nat) (tid2 : String) (e : SrvEntry)
    (h : (stepEntry cid now s d tid fs).2 = EntryOutcome.applied d2 tid2 e) :
    (getEntry s d tid = none → e.version = 1) ∧
    (∀ e0, getEntry s d tid = some e0 → e0.version < e.version) := by
  rcases hsrv : getEntry s d tid with _ | e0
  · rw [stepEntry_absent cid now s d tid fs hsrv] at h
    simp only [EntryOutcome.applied.injEq] at h
    rw [← h.2.2]
    exact ⟨fun _ => rfl, fun e1 he1 => by cases he1⟩
  · refine ⟨fun hn => ?_, fun e1 he1 => ?_⟩
    · exact Option.noConfusion hn
    have he : e1 = e0 := (Option.some.inj he1).symm
    subst he
    by_cases hv : e1.version = baseVersionOf fs
    · rw [stepEntry_some_apply cid now s d tid fs e1 hsrv hv] at h
      simp only [EntryOutcome.applied.injEq] at h
      rw [← h.2.2]
      exact lt_of_le_of_lt (le_of_eq hv) (Nat.lt_succ_self _)
    · rw [stepEntry_some_conflict cid now s d tid fs e1 hsrv hv] at h
      simp at h

theorem mem_fullSnapshot_config (s : Store) (today now : Nat) (id : String)
    (t : SrvTracker) (hm : (id, t) ∈ s.trackers) (hd : t.deleted = false) :
    (id, rehydrateTracker t) ∈ (fullSnapshot s today now).config := by
  unfold fullSnapshot
  exact List.mem_map_of_mem _ (List.mem_filter.mpr ⟨hm, by simp [hd]⟩)

/-- Claim C1 (amended): for an incoming tracker in an update batch, if no
server record exists the write is applied as an insert stored at version 1
regardless of the supplied base version; if a live (non-soft-deleted) server
record exists at version v then an incoming base version equal to v is
applied and stored at version v + 1, while any differing base version is
rejected with a conflict descriptor carrying entityType, entityId,
serverVersion, clientBaseVersion and a copy of the server payload; incoming
entries behave the same way, and entries are never soft-deleted.
Soft-deleted tracker records follow the resurrection and idempotent-tombstone
rows of the decision table instead. -/
theorem C1_perEntity_decision (cid : String) (now : Nat) (s : Store)
    (inc : IncomingTracker) (d : Nat) (tid : String) (fs : Fields) :
    (getTracker s inc.id = none →
       stepTracker cid now s inc =
         (putTracker s inc.id
            ⟨stripReserved inc.fields, 1, cid, now, deleteFlagOf inc.fields⟩,
          TrackerOutcome.applied inc.id
            ⟨stripReserved inc.fields, 1, cid, now, deleteFlagOf inc.fields⟩)) ∧
    (∀ t, getTracker s inc.id = some t → t.deleted = false →
       (t.version = baseVersionOf inc.fields →
          stepTracker cid now s inc =
            (putTracker s inc.id
               ⟨stripReserved inc.fields, baseVersionOf inc.fields + 1, cid, now,
                deleteFlagOf inc.fields⟩,
             TrackerOutcome.applied inc.id
               ⟨stripReserved inc.fields, baseVersionOf inc.fields + 1, cid, now,
                deleteFlagOf inc.fields⟩)) ∧
       (t.version ≠ baseVersionOf inc.fields →
          stepTracker cid now s inc =
            (s, TrackerOutcome.conflicted
                  ⟨("tracker"), inc.id, t.version, baseVersionOf inc.fields,
                   t.payload⟩))) ∧
    (getEntry s d tid = none →
       stepEntry cid now s d tid fs =
         (putEntry s d tid ⟨stripReserved fs, 1, cid, now⟩,
          EntryOutcome.applied d tid ⟨stripReserved fs, 1, cid, now⟩)) ∧
    (∀ e, getEntry s d tid = some e →
       (e.version = baseVersionOf fs →
          stepEntry cid now s d tid fs =
            (putEntry s d tid ⟨stripReserved fs, baseVersionOf fs + 1, cid, now⟩,
             EntryOutcome.applied d tid
               ⟨stripReserved fs, baseVersionOf fs + 1, cid, now⟩)) ∧
       (e.version ≠ baseVersionOf fs →
          stepEntry cid now s d tid fs =
            (s, EntryOutcome.conflicted
                  ⟨("entry"), entryKeyStr d tid, e.version, baseVersionOf fs,
                   e.payload⟩))) := by
  refine ⟨fun h => stepTracker_absent cid now s inc h,
          fun t h hdel => ⟨fun hv => stepTracker_live_apply cid now s inc t h hdel hv,
                           fun hv => stepTracker_live_conflict cid now s inc t h hdel hv⟩,
          fun h => stepEntry_absent cid now s d tid fs h,
          fun e h => ⟨fun hv => stepEntry_some_apply cid now s d tid fs e h hv,
                      fun hv => stepEntry_some_conflict cid now s d tid fs e h hv⟩⟩

/-- Witness for C1: a store holding a live tracker t at version 2 rejects an
incoming write with base version 1 and returns the conflict descriptor with
serverVersion 2, clientBaseVersion 1 and the server payload. -/
theorem C1_perEntity_decision_witness :
    getTracker (putTracker emptyStore ("t")
        ⟨[(("name"), Val.str ("A"))], 2, ("c"), 1, false⟩) ("t") =
      some ⟨[(("name"), Val.str ("A"))], 2, ("c"), 1, false⟩ ∧
    stepTracker ("c2") 9
        (putTracker emptyStore ("t") ⟨[(("name"), Val.str ("A"))], 2, ("c"), 1, false⟩)
        ⟨("t"), [(("_baseVersion"), Val.num 1)]⟩ =
      (putTracker emptyStore ("t") ⟨[(("name"), Val.str ("A"))], 2, ("c"), 1, false⟩,
       TrackerOutcome.conflicted
         ⟨("tracker"), ("t"), 2, 1, [(("name"), Val.str ("A"))]⟩) := by
  refine ⟨by decide, ?_⟩
  rw [(((C1_perEntity_decision ("c2") 9
      (putTracker emptyStore ("t") ⟨[(("name"), Val.str ("A"))], 2, ("c"), 1, false⟩)
      ⟨("t"), [(("_baseVersion"), Val.num 1)]⟩ 0 ("w") []).2.1
      ⟨[(("name"), Val.str ("A"))], 2, ("c"), 1, false⟩ (by decide) rfl).2 (by decide))]
  decide

/-- Counterexample to claim C1 as stated: the spec's decision table makes a
non-delete write over a soft-deleted tracker a resurrection for any base
version.  With the tombstone stored at version 2 and an incoming base version
0, the claim as stated demands a conflict with serverVersion 2, but the batch
applies the write at version 3 and reports no conflict. -/
theorem C1_counterexample :
    getTracker (putTracker emptyStore ("t")
        ⟨[(("name"), Val.str ("Old"))], 2, ("c"), 1, true⟩) ("t") =
      some ⟨[(("name"), Val.str ("Old"))], 2, ("c"), 1, true⟩ ∧
    baseVersionOf [(("name"), Val.str ("New"))] = 0 ∧
    (processBatch
        (putTracker emptyStore ("t") ⟨[(("name"), Val.str ("Old"))], 2, ("c"), 1, true⟩)
        ⟨("c2"), [⟨("t"), [(("name"), Val.str ("New"))]⟩], []⟩ 9).2.conflicts = [] ∧
    getTracker (processBatch
        (putTracker emptyStore ("t") ⟨[(("name"), Val.str ("Old"))], 2, ("c"), 1, true⟩)
        ⟨("c2"), [⟨("t"), [(("name"), Val.str ("New"))]⟩], []⟩ 9).1 ("t") =
      some ⟨[(("name"), Val.str ("New"))], 3, ("c2"), 9, false⟩ := by
  decide

/-- Claim C4: in every update response, lastModified is non-null exactly when
success is true, and success is true exactly when the batch produced no
conflicts; in particular a partially applied batch with at least one conflict
returns a null lastModified even though writes occurred. -/
theorem C4_lastModified_iff_success (s : Store) (b : Batch) (now : Nat) :
    ((processBatch s b now).2.lastModified ≠ none ↔
       (processBatch s b now).2.success = true) ∧
    ((processBatch s b now).2.success = true ↔
       (processBatch s b now).2.conflicts = []) := by
  rcases hl : (processBatch s b now).2.conflicts with _ | ⟨dsc, rest⟩ <;>
    rw [processBatch_lastModified, processBatch_success, hl] <;> simp

/-- Claim C5: every read that lists entries, the days of the full snapshot and
of the delta snapshot, contains only entries whose date is at least today
minus 7 days, with an inclusive lower bound; writes are not windowed: an
entry with an older date submitted in a batch is accepted and stored at
version 1, yet no full or delta read of any store, including the store just
written, lists an entry dated before the bound. -/
theorem C5_seven_day_window (s : Store) (today now since : Nat) (cid : String)
    (d : Nat) (tid : String) (fs : Fields) :
    (∀ k f, (k, f) ∈ (fullSnapshot s today now).days → lowerBound today ≤ k.1) ∧
    (∀ k f, (k, f) ∈ (deltaSnapshot s since today now).days → lowerBound today ≤ k.1) ∧
    (getEntry s d tid = none →
       stepEntry cid now s d tid fs =
         (putEntry s d tid ⟨stripReserved fs, 1, cid, now⟩,
          EntryOutcome.applied d tid ⟨stripReserved fs, 1, cid, now⟩) ∧
       getEntry (stepEntry cid now s d tid fs).1 d tid =
         some ⟨stripReserved fs, 1, cid, now⟩) ∧
    (d < lowerBound today →
       (∀ f, ((d, tid), f) ∉ (fullSnapshot s today now).days) ∧
       (∀ f, ((d, tid), f) ∉ (deltaSnapshot s since today now).days)) := by
  have hfull : ∀ k f, (k, f) ∈ (fullSnapshot s today now).days →
      lowerBound today ≤ k.1 := by
    intro k f hm
    unfold fullSnapshot at hm
    simp only [List.mem_map] at hm
    obtain ⟨p, hp, he⟩ := hm
    obtain ⟨hp1, hp2⟩ := List.mem_filter.mp hp
    have hk : k = p.1 := (Prod.ext_iff.mp he.symm).1
    rw [hk]
    exact of_decide_eq_true hp2
  have hdelta : ∀ k f, (k, f) ∈ (deltaSnapshot s since today now).days →
      lowerBound today ≤ k.1 := by
    intro k f hm
    unfold deltaSnapshot at hm
    simp only [List.mem_map] at hm
    obtain ⟨p, hp, he⟩ := hm
    obtain ⟨hp1, hp2⟩ := List.mem_filter.mp hp
    have hk : k = p.1 := (Prod.ext_iff.mp he.symm).1
    rw [hk]
    simp only [Bool.and_eq_true] at hp2
    exact of_decide_eq_true hp2.2
  refine ⟨hfull, hdelta, fun h => ⟨stepEntry_absent cid now s d tid fs h, ?_⟩,
          fun hd => ⟨fun f hm => ?_, fun f hm => ?_⟩⟩
  · rw [stepEntry_absent cid now s d tid fs h]
    exact getEntry_putEntry_self s d tid _
  · exact absurd (hfull _ _ hm) (Nat.not_le.mpr hd)
  · exact absurd (hdelta _ _ hm) (Nat.not_le.mpr hd)

/-- Witness for C5: with today = 10 the window bound is day 3; an entry dated
day 1 written to an empty store is accepted at version 1, and the full
snapshot of the store just written does not list it. -/
theorem C5_seven_day_window_witness :
    getEntry emptyStore 1 ("w") = none ∧
    1 < lowerBound 10 ∧
    stepEntry ("c") 9 emptyStore 1 ("w") [(("value"), Val.num 5)] =
      (putEntry emptyStore 1 ("w") ⟨[(("value"), Val.num 5)], 1, ("c"), 9⟩,
       EntryOutcome.applied 1 ("w") ⟨[(("value"), Val.num 5)], 1, ("c"), 9⟩) ∧
    ((1, ("w")), rehydrateEntry ⟨[(("value"), Val.num 5)], 1, ("c"), 9⟩) ∉
      (fullSnapshot (stepEntry ("c") 9 emptyStore 1 ("w")
        [(("value"), Val.num 5)]).1 10 9).days := by
  have h := C5_seven_day_window emptyStore 10 9 0 ("c") 1 ("w") [(("value"), Val.num 5)]
  have h2 := C5_seven_day_window
      (stepEntry ("c") 9 emptyStore 1 ("w") [(("value"), Val.num 5)]).1 10 9 0
      ("c") 1 ("w") []
  exact ⟨rfl, by decide, (h.2.2.1 rfl).1, (h2.2.2.2 (by decide)).1 _⟩

/-- Claim C6: for an accepted tracker update, every non-reserved payload key
of the incoming object is returned unchanged by the rehydrated read, the
updated tracker (when not a delete) appears in the full snapshot merged at
top level, and any further accepted update that agrees with the first on
every unrecognized (non-reserved, non-known) key leaves those keys readable
with their original values. -/
theorem C6_metadata_roundtrip (cid : String) (now today snow : Nat) (s : Store)
    (inc : IncomingTracker) (i : String) (r : SrvTracker)
    (h : (stepTracker cid now s inc).2 = TrackerOutcome.applied i r) :
    (∀ k, k ∉ reservedKeys →
       lookupField (rehydrateTracker r) k = lookupField inc.fields k) ∧
    (deleteFlagOf inc.fields = false →
       (inc.id, rehydrateTracker r) ∈
         (fullSnapshot (stepTracker cid now s inc).1 today snow).config) ∧
    (∀ (cid2 : String) (now2 : Nat) (s2 : Store) (inc2 : IncomingTracker)
       (i2 : String) (r2 : SrvTracker),
       (stepTracker cid2 now2 s2 inc2).2 = TrackerOutcome.applied i2 r2 →
       (∀ k, k ∉ reservedKeys → k ∉ knownTrackerKeys →
          lookupField inc2.fields k = lookupField inc.fields k) →
       (∀ k, k ∉ reservedKeys → k ∉ knownTrackerKeys →
          lookupField (rehydrateTracker r2) k = lookupField inc.fields k)) := by
  have key : ∀ (cid3 : String) (now3 : Nat) (s3 : Store) (inc3 : IncomingTracker)
      (i3 : String) (r3 : SrvTracker),
      (stepTracker cid3 now3 s3 inc3).2 = TrackerOutcome.applied i3 r3 →
      ∀ k, k ∉ reservedKeys →
        lookupField (rehydrateTracker r3) k = lookupField inc3.fields k := by
    intro cid3 now3 s3 inc3 i3 r3 h3 k hk
    rw [lookupField_rehydrateTracker r3 k hk,
        (stepTracker_applied_fields cid3 now3 s3 inc3 i3 r3 h3).1,
        lookupField_stripReserved inc3.fields k hk]
  refine ⟨key cid now s inc i r h, fun hf => ?_,
          fun cid2 now2 s2 inc2 i2 r2 h2 hagree k hk hkn => ?_⟩
  · have hfst := stepTracker_applied_fst cid now s inc i r h
    have hdel := (stepTracker_applied_fields cid now s inc i r h).2.2.2 hf
    rw [hfst]
    exact mem_fullSnapshot_config _ today snow inc.id r (List.mem_cons_self _ _) hdel
  · rw [key cid2 now2 s2 inc2 i2 r2 h2 k hk]
    exact hagree k hk hkn

/-- Witness for C6: a tracker created with the metadata key unit = glasses
reads back with that key unchanged. -/
theorem C6_metadata_roundtrip_witness :
    (stepTracker ("c") 5 emptyStore
        ⟨("t"), [(("name"), Val.str ("Water")), (("unit"), Val.str ("glasses"))]⟩).2 =
      TrackerOutcome.applied ("t")
        ⟨[(("name"), Val.str ("Water")), (("unit"), Val.str ("glasses"))],
         1, ("c"), 5, false⟩ ∧
    lookupField (rehydrateTracker
        ⟨[(("name"), Val.str ("Water")), (("unit"), Val.str ("glasses"))],
         1, ("c"), 5, false⟩) ("unit") = some (Val.str ("glasses")) := by
  have h := C6_metadata_roundtrip ("c") 5 0 0 emptyStore
      ⟨("t"), [(("name"), Val.str ("Water")), (("unit"), Val.str ("glasses"))]⟩ ("t")
      ⟨[(("name"), Val.str ("Water")), (("unit"), Val.str ("glasses"))],
       1, ("c"), 5, false⟩ (by decide)
  refine ⟨by decide, ?_⟩
  rw [h.1 ("unit") (by decide)]
  decide

/-- Claim C7: resolving with resolution = server appends one conflict-log row
and changes nothing else: trackers, entries and the sync-metadata scalar are
untouched and no version moves.  Resolving with resolution = client
overwrites the targeted entity with the supplied payload, increments its
version by exactly one, stamps the resolving client and the clock reading,
and appends one conflict-log row; no hypothesis about the entity's version
or any base version is needed, because the write bypasses conflict
detection. -/
theorem C7_resolution_effects (s : Store) (key : EntityKey) (cid : String)
    (p : Fields) (now : Nat) :
    (∃ s2, resolveConflict s key ("server") cid p now = Except.ok s2 ∧
       s2.trackers = s.trackers ∧ s2.entries = s.entries ∧
       s2.syncMeta = s.syncMeta ∧
       s2.conflictLog = s.conflictLog ++
         [⟨key.typeName, key.idString, ("server"), cid, some now⟩]) ∧
    (∀ id t, key = EntityKey.tracker id → getTracker s id = some t →
       ∃ s2, resolveConflict s key ("client") cid p now = Except.ok s2 ∧
         getTracker s2 id =
           some ⟨stripReserved p, t.version + 1, cid, now, deleteFlagOf p⟩ ∧
         s2.conflictLog = s.conflictLog ++
           [⟨("tracker"), id, ("client"), cid, some now⟩] ∧
         s2.entries = s.entries) ∧
    (∀ d tid e, key = EntityKey.entry d tid → getEntry s d tid = some e →
       ∃ s2, resolveConflict s key ("client") cid p now = Except.ok s2 ∧
         getEntry s2 d tid = some ⟨stripReserved p, e.version + 1, cid, now⟩ ∧
         s2.conflictLog = s.conflictLog ++
           [⟨("entry"), entryKeyStr d tid, ("client"), cid, some now⟩] ∧
         s2.trackers = s.trackers) := by
  refine ⟨⟨{ s with conflictLog := s.conflictLog ++
      [⟨key.typeName, key.idString, ("server"), cid, some now⟩] },
      ?_, rfl, rfl, rfl, rfl⟩, ?_, ?_⟩
  · unfold resolveConflict
    rw [if_pos rfl]
  · intro id t hkey hget
    subst hkey
    refine ⟨{ putTracker s id
                ⟨stripReserved p, t.version + 1, cid, now, deleteFlagOf p⟩ with
              conflictLog := s.conflictLog ++
                [⟨("tracker"), id, ("client"), cid, some now⟩] }, ?_, ?_, rfl, rfl⟩
    · unfold resolveConflict
      rw [if_neg (by decide), if_pos rfl]
      simp only [hget]
    · exact getTracker_putTracker_self s id _
  · intro d tid e hkey hget
    subst hkey
    refine ⟨{ putEntry s d tid ⟨stripReserved p, e.version + 1, cid, now⟩ with
              conflictLog := s.conflictLog ++
                [⟨("entry"), entryKeyStr d tid, ("client"), cid, some now⟩] },
            ?_, ?_, rfl, rfl⟩
    · unfold resolveConflict
      rw [if_neg (by decide), if_pos rfl]
      simp only [hget]
    · exact getEntry_putEntry_self s d tid _

/-- Witness for C7: on a store holding tracker t at version 2, a client
resolution with a new payload stores that payload at version 3 stamped by
the resolving client, and logs one resolved conflict row. -/
theorem C7_resolution_effects_witness :
    getTracker (putTracker emptyStore ("t")
        ⟨[(("name"), Val.str ("A"))], 2, ("c"), 1, false⟩) ("t") =
      some ⟨[(("name"), Val.str ("A"))], 2, ("c"), 1, false⟩ ∧
    (∃ s2, resolveConflict
        (putTracker emptyStore ("t") ⟨[(("name"), Val.str ("A"))], 2, ("c"), 1, false⟩)
        (EntityKey.tracker ("t")) ("client") ("c2") [(("name"), Val.str ("B"))] 7 =
        Except.ok s2 ∧
      getTracker s2 ("t") = some ⟨[(("name"), Val.str ("B"))], 3, ("c2"), 7, false⟩ ∧
      s2.conflictLog = [⟨("tracker"), ("t"), ("client"), ("c2"), some 7⟩] ∧
      s2.entries = []) := by
  refine ⟨by decide, ?_⟩
  obtain ⟨s2, h1, h2, h3, h4⟩ := (C7_resolution_effects
      (putTracker emptyStore ("t") ⟨[(("name"), Val.str ("A"))], 2, ("c"), 1, false⟩)
      (EntityKey.tracker ("t")) ("c2") [(("name"), Val.str ("B"))] 7).2.1
      ("t") ⟨[(("name"), Val.str ("A"))], 2, ("c"), 1, false⟩ rfl (by decide)
  refine ⟨s2, h1, ?_, ?_, ?_⟩
  · rw [h2]
    decide
  · rw [h3]
    decide
  · rw [h4]
    decide

theorem conflictLog_resolved_preserved (s s2 : Store) (hstep : Step s s2)
    (hinv : ∀ c ∈ s.conflictLog, c.resolvedAt ≠ none) :
    ∀ c ∈ s2.conflictLog, c.resolvedAt ≠ none := by
  intro c hc
  cases hstep with
  | update b now =>
      rw [processBatch_conflictLog] at hc
      exact hinv c hc
  | resolve key res cid p now s2 heq =>
      unfold resolveConflict at heq
      by_cases h1 : res = ("server")
      · rw [if_pos h1] at heq
        have hs2 := Except.ok.inj heq
        subst hs2
        have hc2 : c ∈ s.conflictLog ++
            [⟨key.typeName, key.idString, ("server"), cid, some now⟩] := hc
        rcases List.mem_append.mp hc2 with hm | hm
        · exact hinv c hm
        · rw [List.mem_singleton.mp hm]
          exact fun hh => Option.noConfusion hh
      · rw [if_neg h1] at heq
        by_cases h2 : res = ("client")
        · rw [if_pos h2] at heq
          cases key with
          | tracker id =>
              have hs2 := Except.ok.inj heq
              subst hs2
              have hc2 : c ∈ s.conflictLog ++
                  [⟨("tracker"), id, ("client"), cid, some now⟩] := hc
              rcases List.mem_append.mp hc2 with hm | hm
              · exact hinv c hm
              · rw [List.mem_singleton.mp hm]
                exact fun hh => Option.noConfusion hh
          | entry d tid =>
              have hs2 := Except.ok.inj heq
              subst hs2
              have hc2 : c ∈ s.conflictLog ++
                  [⟨("entry"), entryKeyStr d tid, ("client"), cid, some now⟩] := hc
              rcases List.mem_append.mp hc2 with hm | hm
              · exact hinv c hm
              · rw [List.mem_singleton.mp hm]
                exact fun hh => Option.noConfusion hh
        · rw [if_neg h2] at heq
          exact Except.noConfusion heq

theorem reachable_conflictLog_resolved (s : Store) (h : Reachable s) :
    ∀ c ∈ s.conflictLog, c.resolvedAt ≠ none := by
  induction h with
  | init => intro c hc; cases hc
  | step hr hstep ih => exact conflictLog_resolved_preserved _ _ hstep ih

/-- Claim C8: the unresolved-conflicts endpoint returns only rows without a
resolvedAt stamp, and because every conflict row the server ever inserts is
written at resolution time with resolvedAt set, the returned list is empty
in every state reachable through the public endpoints. -/
theorem C8_conflicts_endpoint_empty (s : Store) (cid : String) (h : Reachable s) :
    (∀ c ∈ getConflicts s cid, c.resolvedAt = none) ∧ getConflicts s cid = [] := by
  have hinv := reachable_conflictLog_resolved s h
  have hfilter : ∀ c ∈ getConflicts s cid, c.resolvedAt = none := by
    intro c hc
    exact Option.isNone_iff_eq_none.mp (List.mem_filter.mp hc).2
  refine ⟨hfilter, ?_⟩
  cases hl : getConflicts s cid with
  | nil => rfl
  | cons c rest =>
      have hc : c ∈ getConflicts s cid := by
        rw [hl]
        exact List.mem_cons_self _ _
      exact absurd (hfilter c hc) (hinv c (List.mem_filter.mp hc).1)

/-- Witness for C8: the fresh store is reachable and its unresolved-conflicts
list is empty. -/
theorem C8_conflicts_endpoint_empty_witness : getConflicts emptyStore ("c") = [] :=
  (C8_conflicts_endpoint_empty emptyStore ("c") Reachable.init).2

theorem stepTracker_version_pos (cid : String) (now : Nat) (s : Store)
    (inc : IncomingTracker) (i : String) (r : SrvTracker)
    (h : (stepTracker cid now s inc).2 = TrackerOutcome.applied i r) :
    1 ≤ r.version := by
  obtain ⟨h1, h2⟩ := stepTracker_applied_version cid now s inc i r h
  rcases hsrv : getTracker s inc.id with _ | t
  · exact le_of_eq (h1 hsrv).symm
  · exact Nat.one_le_iff_ne_zero.mpr
      (Nat.pos_iff_ne_zero.mp (Nat.lt_of_le_of_lt (Nat.zero_le _) (h2 t hsrv)))

theorem stepEntry_version_pos (cid : String) (now : Nat) (s : Store) (d : Nat)
    (tid : String) (fs : Fields) (d2 : Nat) (tid2 : String) (e : SrvEntry)
    (h : (stepEntry cid now s d tid fs).2 = EntryOutcome.applied d2 tid2 e) :
    1 ≤ e.version := by
  obtain ⟨h1, h2⟩ := stepEntry_applied_version cid now s d tid fs d2 tid2 e h
  rcases hsrv : getEntry s d tid with _ | e0
  · exact le_of_eq (h1 hsrv).symm
  · exact Nat.one_le_iff_ne_zero.mpr
      (Nat.pos_iff_ne_zero.mp (Nat.lt_of_le_of_lt (Nat.zero_le _) (h2 e0 hsrv)))

theorem putTracker_versOK (s : Store) (id : String) (t : SrvTracker)
    (hs : ∀ q ∈ s.trackers, 1 ≤ q.2.version) (ht : 1 ≤ t.version) :
    ∀ q ∈ (putTracker s id t).trackers, 1 ≤ q.2.version := by
  intro q hq
  rcases List.mem_cons.mp hq with he | hq2
  · rw [he]
    exact ht
  · exact hs q (mem_removeKey _ _ _ hq2)

theorem putEntry_versOK (s : Store) (d : Nat) (tid : String) (e : SrvEntry)
    (hs : ∀ q ∈ s.entries, 1 ≤ q.2.version) (he : 1 ≤ e.version) :
    ∀ q ∈ (putEntry s d tid e).entries, 1 ≤ q.2.version := by
  intro q hq
  rcases List.mem_cons.mp hq with heq | hq2
  · rw [heq]
    exact he
  · exact hs q (mem_removeKey _ _ _ hq2)

theorem stepTracker_versOK (cid : String) (now : Nat) (s : Store)
    (inc : IncomingTracker) (hs : ∀ q ∈ s.trackers, 1 ≤ q.2.version) :
    ∀ q ∈ (stepTracker cid now s inc).1.trackers, 1 ≤ q.2.version := by
  rcases stepTracker_cases cid now s inc with ⟨r, he⟩ | ⟨dsc, he⟩ | he
  · have hv : 1 ≤ r.version :=
      stepTracker_version_pos cid now s inc inc.id r (by rw [he])
    rw [he]
    exact putTracker_versOK s inc.id r hs hv
  · rw [he]
    exact hs
  · rw [he]
    exact hs

theorem stepEntry_versOK (cid : String) (now : Nat) (s : Store) (d : Nat)
    (tid : String) (fs : Fields) (hs : ∀ q ∈ s.entries, 1 ≤ q.2.version) :
    ∀ q ∈ (stepEntry cid now s d tid fs).1.entries, 1 ≤ q.2.version := by
  rcases stepEntry_cases cid now s d tid fs with ⟨e, he⟩ | ⟨dsc, he⟩
  · have hv : 1 ≤ e.version :=
      stepEntry_version_pos cid now s d tid fs d tid e (by rw [he])
    rw [he]
    exact putEntry_versOK s d tid e hs hv
  · rw [he]
    exact hs

theorem runTrackers_versOK (cid : String) (now : Nat) (l : List IncomingTracker)
    (s : Store) (hs : ∀ q ∈ s.trackers, 1 ≤ q.2.version) :
    ∀ q ∈ (runTrackers cid now s l).1.trackers, 1 ≤ q.2.version := by
  induction l generalizing s with
  | nil => exact hs
  | cons inc rest ih =>
      simp only [runTrackers]
      exact ih _ (stepTracker_versOK cid now s inc hs)

theorem runEntries_versOK (cid : String) (now : Nat) (l : List (Nat × String × Fields))
    (s : Store) (hs : ∀ q ∈ s.entries, 1 ≤ q.2.version) :
    ∀ q ∈ (runEntries cid now s l).1.entries, 1 ≤ q.2.version := by
  induction l generalizing s with
  | nil => exact hs
  | cons it rest ih =>
      simp only [runEntries]
      exact ih _ (stepEntry_versOK cid now s it.1 it.2.1 it.2.2 hs)

theorem processBatch_versOK (s : Store) (b : Batch) (now : Nat)
    (hs1 : ∀ q ∈ s.trackers, 1 ≤ q.2.version)
    (hs2 : ∀ q ∈ s.entries, 1 ≤ q.2.version) :
    (∀ q ∈ (processBatch s b now).1.trackers, 1 ≤ q.2.version) ∧
    (∀ q ∈ (processBatch s b now).1.entries, 1 ≤ q.2.version) := by
  constructor
  · intro q hq
    have h1 : (processBatch s b now).1.trackers =
        (runTrackers b.clientId now s b.config).1.trackers := by
      simp only [processBatch]
      split <;> rw [runEntries_trackers]
    rw [h1] at hq
    exact runTrackers_versOK b.clientId now b.config s hs1 q hq
  · intro q hq
    have h1 : (processBatch s b now).1.entries =
        (runEntries b.clientId now (runTrackers b.clientId now s b.config).1 b.days).1.entries := by
      simp only [processBatch]
      split <;> rfl
    rw [h1] at hq
    have hmid : ∀ q ∈ (runTrackers b.clientId now s b.config).1.entries, 1 ≤ q.2.version := by
      rw [runTrackers_entries]
      exact hs2
    exact runEntries_versOK b.clientId now b.days _ hmid q hq

theorem resolveConflict_versOK (s : Store) (key : EntityKey) (res cid : String)
    (p : Fields) (now : Nat) (s2 : Store)
    (heq : resolveConflict s key res cid p now = Except.ok s2)
    (hs1 : ∀ q ∈ s.trackers, 1 ≤ q.2.version)
    (hs2 : ∀ q ∈ s.entries, 1 ≤ q.2.version) :
    (∀ q ∈ s2.trackers, 1 ≤ q.2.version) ∧ (∀ q ∈ s2.entries, 1 ≤ q.2.version) := by
  unfold resolveConflict at heq
  by_cases h1 : res = ("server")
  · rw [if_pos h1] at heq
    have hs := Except.ok.inj heq
    subst hs
    exact ⟨hs1, hs2⟩
  · rw [if_neg h1] at heq
    by_cases h2 : res = ("client")
    · rw [if_pos h2] at heq
      cases key with
      | tracker id =>
          have hs := Except.ok.inj heq
          subst hs
          refine ⟨?_, hs2⟩
          intro q hq
          have hq2 : q ∈ (putTracker s id
              ⟨stripReserved p,
               (match getTracker s id with | some t => t.version | none => 0) + 1,
               cid, now, deleteFlagOf p⟩).trackers := hq
          exact putTracker_versOK s id _ hs1 (Nat.le_add_left 1 _) q hq2
      | entry d tid =>
          have hs := Except.ok.inj heq
          subst hs
          refine ⟨hs1, ?_⟩
          intro q hq
          have hq2 : q ∈ (putEntry s d tid
              ⟨stripReserved p,
               (match getEntry s d tid with | some e => e.version | none => 0) + 1,
               cid, now⟩).entries := hq
          exact putEntry_versOK s d tid _ hs2 (Nat.le_add_left 1 _) q hq2
    · rw [if_neg h2] at heq
      exact Except.noConfusion heq

theorem versOK_step (s s2 : Store) (hstep : Step s s2)
    (hs1 : ∀ q ∈ s.trackers, 1 ≤ q.2.version)
    (hs2 : ∀ q ∈ s.entries, 1 ≤ q.2.version) :
    (∀ q ∈ s2.trackers, 1 ≤ q.2.version) ∧ (∀ q ∈ s2.entries, 1 ≤ q.2.version) := by
  cases hstep with
  | update b now => exact processBatch_versOK _ _ now hs1 hs2
  | resolve key res cid p now s3 heq =>
      exact resolveConflict_versOK _ key res cid p now _ heq hs1 hs2

theorem reachable_versOK (s : Store) (h : Reachable s) :
    (∀ q ∈ s.trackers, 1 ≤ q.2.version) ∧ (∀ q ∈ s.entries, 1 ≤ q.2.version) := by
  induction h with
  | init =>
      refine ⟨fun q hq => ?_, fun q hq => ?_⟩ <;> cases hq
  | step hr hstep ih => exact versOK_step _ _ hstep ih.1 ih.2

/-- Claim C3: stored versions start at 1 on insert and strictly increase with
each accepted mutation, soft deletes of trackers included (an accepted delete
is an apply and bumps the version like any other write); hence version is at
least 1 for every tracker and entry in every reachable state, and no
accepted mutation leaves the version equal or lower. -/
theorem C3_version_monotone :
    (∀ s, Reachable s →
       (∀ q ∈ s.trackers, 1 ≤ q.2.version) ∧ (∀ q ∈ s.entries, 1 ≤ q.2.version)) ∧
    (∀ (cid : String) (now : Nat) (s : Store) (inc : IncomingTracker)
       (i : String) (r : SrvTracker),
       (stepTracker cid now s inc).2 = TrackerOutcome.applied i r →
       (getTracker s inc.id = none → r.version = 1) ∧
       (∀ t, getTracker s inc.id = some t → t.version < r.version)) ∧
    (∀ (cid : String) (now : Nat) (s : Store) (d : Nat) (tid : String)
       (fs : Fields) (d2 : Nat) (tid2 : String) (e : SrvEntry),
       (stepEntry cid now s d tid fs).2 = EntryOutcome.applied d2 tid2 e →
       (getEntry s d tid = none → e.version = 1) ∧
       (∀ e0, getEntry s d tid = some e0 → e0.version < e.version)) :=
  ⟨fun s h => reachable_versOK s h,
   fun cid now s inc i r h => stepTracker_applied_version cid now s inc i r h,
   fun cid now s d tid fs d2 tid2 e h =>
     stepEntry_applied_version cid now s d tid fs d2 tid2 e h⟩

/-- Witness for C3: a tracker stored at version 1 and updated with base
version 1 is accepted at version 2, strictly above the old version; the
soft-delete flag on the incoming write makes the accepted mutation a delete
and it too is stored at version 2. -/
theorem C3_version_monotone_witness :
    (stepTracker ("c") 9 (putTracker emptyStore ("t") ⟨[], 1, ("c"), 1, false⟩)
        ⟨("t"), [(("_baseVersion"), Val.num 1), (("_deleted"), Val.bool true)]⟩).2 =
      TrackerOutcome.applied ("t") ⟨[], 2, ("c"), 9, true⟩ ∧
    getTracker (putTracker emptyStore ("t") ⟨[], 1, ("c"), 1, false⟩) ("t") =
      some ⟨[], 1, ("c"), 1, false⟩ ∧
    (1 : Nat) < 2 := by
  refine ⟨by decide, by decide, ?_⟩
  exact (C3_version_monotone.2.1 ("c") 9
      (putTracker emptyStore ("t") ⟨[], 1, ("c"), 1, false⟩)
      ⟨("t"), [(("_baseVersion"), Val.num 1), (("_deleted"), Val.bool true)]⟩
      ("t") ⟨[], 2, ("c"), 9, true⟩ (by decide)).2
      ⟨[], 1, ("c"), 1, false⟩ (by decide)

theorem stepTracker_conflicted_shape (cid : String) (now : Nat) (s : Store)
    (inc : IncomingTracker) (dsc : ConflictDescriptor)
    (h : (stepTracker cid now s inc).2 = TrackerOutcome.conflicted dsc) :
    dsc.entityType = ("tracker") ∧ dsc.entityId = inc.id := by
  rcases hsrv : getTracker s inc.id with _ | t
  · rw [stepTracker_absent cid now s inc hsrv] at h
    simp at h
  · rcases hdel : t.deleted
    · by_cases hv : t.version = baseVersionOf inc.fields
      · rw [stepTracker_live_apply cid now s inc t hsrv hdel hv] at h
        simp at h
      · rw [stepTracker_live_conflict cid now s inc t hsrv hdel hv] at h
        have h2 : (⟨("tracker"), inc.id, t.version, baseVersionOf inc.fields,
            t.payload⟩ : ConflictDescriptor) = dsc := by
          simpa using h
        rw [← h2]
        exact ⟨rfl, rfl⟩
    · rcases hflag : deleteFlagOf inc.fields
      · rw [stepTracker_dead_write cid now s inc t hsrv hdel hflag] at h
        simp at h
      · rw [stepTracker_dead_delete cid now s inc t hsrv hdel hflag] at h
        simp at h

theorem stepEntry_conflicted_shape (cid : String) (now : Nat) (s : Store) (d : Nat)
    (tid : String) (fs : Fields) (dsc : ConflictDescriptor)
    (h : (stepEntry cid now s d tid fs).2 = EntryOutcome.conflicted dsc) :
    dsc.entityType = ("entry") ∧ dsc.entityId = entryKeyStr d tid := by
  rcases hsrv : getEntry s d tid with _ | e
  · rw [stepEntry_absent cid now s d tid fs hsrv] at h
    simp at h
  · by_cases hv : e.version = baseVersionOf fs
    · rw [stepEntry_some_apply cid now s d tid fs e hsrv hv] at h
      simp at h
    · rw [stepEntry_some_conflict cid now s d tid fs e hsrv hv] at h
      have h2 : (⟨("entry"), entryKeyStr d tid, e.version, baseVersionOf fs,
          e.payload⟩ : ConflictDescriptor) = dsc := by
        simpa using h
      rw [← h2]
      exact ⟨rfl, rfl⟩

theorem countP_congr_local {α : Type} (p q : α → Bool) (l : List α)
    (h : ∀ a ∈ l, p a = q a) : l.countP p = l.countP q := by
  induction l with
  | nil => rfl
  | cons a rest ih =>
      rw [List.countP_cons, List.countP_cons, h a (List.mem_cons_self _ _),
          ih (fun x hx => h x (List.mem_cons_of_mem _ hx))]

theorem entryConflictsOnB_congr (s1 s2 : Store) (d : Nat) (tid : String) (fs : Fields)
    (h : getEntry s1 d tid = getEntry s2 d tid) :
    entryConflictsOnB s1 d tid fs = entryConflictsOnB s2 d tid fs := by
  unfold entryConflictsOnB
  rw [h]

theorem conflictsOnB_false_of_not_true (s : Store) (inc : IncomingTracker)
    (h : ¬ conflictsOnB s inc = true) : conflictsOnB s inc = false := by
  rcases hc : conflictsOnB s inc
  · rfl
  · exact absurd hc h

theorem entryConflictsOnB_false_of_not_true (s : Store) (d : Nat) (tid : String)
    (fs : Fields) (h : ¬ entryConflictsOnB s d tid fs = true) :
    entryConflictsOnB s d tid fs = false := by
  rcases hc : entryConflictsOnB s d tid fs
  · rfl
  · exact absurd hc h

theorem trackerPart_count (cid : String) (now : Nat) (s : Store)
    (l : List IncomingTracker) (hnd : (l.map (fun i => i.id)).Nodup)
    (hnoop : ∀ inc ∈ l, tombstoneDeleteB s inc = false)
    (inc : IncomingTracker) (hm : inc ∈ l) :
    ((l.map (fun inc2 => (stepTracker cid now s inc2).2)).filterMap
      TrackerOutcome.conflictD).countP
      (fun dsc => dsc.entityType == ("tracker") && dsc.entityId == inc.id) =
    (if conflictsOnB s inc = true then 1 else 0) := by
  rw [countP_filterMap, List.countP_map]
  by_cases hc : conflictsOnB s inc = true
  · rw [if_pos hc]
    have hpoint : ∀ inc2 ∈ l,
        ((fun o => ((TrackerOutcome.conflictD o).map
            (fun dsc => dsc.entityType == ("tracker") && dsc.entityId == inc.id)).getD false) ∘
          (fun inc2 => (stepTracker cid now s inc2).2)) inc2 =
        (inc2.id == inc.id) := by
      intro inc2 hm2
      simp only [Function.comp_apply]
      by_cases hc2 : conflictsOnB s inc2 = true
      · obtain ⟨t2, hg2, hd2, hv2, hout2⟩ := stepTracker_conflictD_some cid now s inc2 hc2
        rw [hout2]
        simp [TrackerOutcome.conflictD]
      · obtain ⟨r2, hout2⟩ := stepTracker_applied_of_not_conflict cid now s inc2
          (conflictsOnB_false_of_not_true s inc2 hc2) (hnoop inc2 hm2)
        rw [hout2]
        simp only [TrackerOutcome.conflictD, Option.map_none', Option.getD_none]
        have hne : inc2.id ≠ inc.id := by
          intro he
          have heq : inc2 = inc := List.inj_on_of_nodup_map hnd hm2 hm he
          rw [heq] at hc2
          exact hc2 hc
        exact (beq_eq_false_iff_ne.mpr hne).symm
    rw [countP_congr_local _ _ l hpoint, countP_eq_count_map (fun i => i.id) inc.id l,
        List.count_eq_one_of_mem hnd (List.mem_map_of_mem _ hm)]
  · rw [if_neg hc]
    apply List.countP_eq_zero.mpr
    intro inc2 hm2
    simp only [Function.comp_apply]
    by_cases hc2 : conflictsOnB s inc2 = true
    · obtain ⟨t2, hg2, hd2, hv2, hout2⟩ := stepTracker_conflictD_some cid now s inc2 hc2
      rw [hout2]
      simp only [TrackerOutcome.conflictD, Option.map_some', Option.getD_some,
        Bool.and_eq_true, beq_iff_eq, not_and]
      intro _ he
      have heq : inc2 = inc := List.inj_on_of_nodup_map hnd hm2 hm he
      rw [heq] at hc2
      exact hc hc2
    · obtain ⟨r2, hout2⟩ := stepTracker_applied_of_not_conflict cid now s inc2
        (conflictsOnB_false_of_not_true s inc2 hc2) (hnoop inc2 hm2)
      rw [hout2]
      simp [TrackerOutcome.conflictD]

theorem entryPart_zero_for_tracker (cid : String) (now : Nat) (s : Store)
    (l : List (Nat × String × Fields)) (x : String) :
    ((l.map (fun it => (stepEntry cid now s it.1 it.2.1 it.2.2).2)).filterMap
      EntryOutcome.conflictD).countP
      (fun dsc => dsc.entityType == ("tracker") && dsc.entityId == x) = 0 := by
  apply List.countP_eq_zero.mpr
  intro dsc hdsc
  obtain ⟨o, ho, hco⟩ := List.mem_filterMap.mp hdsc
  obtain ⟨it, hit, hoe⟩ := List.mem_map.mp ho
  have ho2 : o = EntryOutcome.conflicted dsc := by
    cases o with
    | applied a c e => simp [EntryOutcome.conflictD] at hco
    | conflicted d2 =>
        simp only [EntryOutcome.conflictD, Option.some.injEq] at hco
        rw [hco]
    | noop => simp [EntryOutcome.conflictD] at hco
  have hshape := stepEntry_conflicted_shape cid now s it.1 it.2.1 it.2.2 dsc
    (by rw [hoe]; exact ho2)
  simp [hshape.1]

theorem trackerPart_zero_for_entry (cid : String) (now : Nat) (s : Store)
    (l : List IncomingTracker) (x : String) :
    ((l.map (fun inc2 => (stepTracker cid now s inc2).2)).filterMap
      TrackerOutcome.conflictD).countP
      (fun dsc => dsc.entityType == ("entry") && dsc.entityId == x) = 0 := by
  apply List.countP_eq_zero.mpr
  intro dsc hdsc
  obtain ⟨o, ho, hco⟩ := List.mem_filterMap.mp hdsc
  obtain ⟨inc2, hinc2, hoe⟩ := List.mem_map.mp ho
  have ho2 : o = TrackerOutcome.conflicted dsc := by
    cases o with
    | applied a c => simp [TrackerOutcome.conflictD] at hco
    | conflicted d2 =>
        simp only [TrackerOutcome.conflictD, Option.some.injEq] at hco
        rw [hco]
    | noop => simp [TrackerOutcome.conflictD] at hco
  have hshape := stepTracker_conflicted_shape cid now s inc2 dsc
    (by rw [hoe]; exact ho2)
  simp [hshape.1]

theorem entryPart_count (cid : String) (now : Nat) (s : Store)
    (l : List (Nat × String × Fields))
    (hnd : (l.map (fun it => entryKeyStr it.1 it.2.1)).Nodup)
    (it : Nat × String × Fields) (hm : it ∈ l) :
    ((l.map (fun it2 => (stepEntry cid now s it2.1 it2.2.1 it2.2.2).2)).filterMap
      EntryOutcome.conflictD).countP
      (fun dsc => dsc.entityType == ("entry") &&
        dsc.entityId == entryKeyStr it.1 it.2.1) =
    (if entryConflictsOnB s it.1 it.2.1 it.2.2 = true then 1 else 0) := by
  rw [countP_filterMap, List.countP_map]
  by_cases hc : entryConflictsOnB s it.1 it.2.1 it.2.2 = true
  · rw [if_pos hc]
    have hpoint : ∀ it2 ∈ l,
        ((fun o => ((EntryOutcome.conflictD o).map
            (fun dsc => dsc.entityType == ("entry") &&
              dsc.entityId == entryKeyStr it.1 it.2.1)).getD false) ∘
          (fun it2 => (stepEntry cid now s it2.1 it2.2.1 it2.2.2).2)) it2 =
        (entryKeyStr it2.1 it2.2.1 == entryKeyStr it.1 it.2.1) := by
      intro it2 hm2
      simp only [Function.comp_apply]
      by_cases hc2 : entryConflictsOnB s it2.1 it2.2.1 it2.2.2 = true
      · obtain ⟨e2, hg2, hv2, hout2⟩ := stepEntry_conflictD_some cid now s
          it2.1 it2.2.1 it2.2.2 hc2
        rw [hout2]
        simp [EntryOutcome.conflictD]
      · obtain ⟨e2, hout2⟩ := stepEntry_applied_of_not_conflict cid now s
          it2.1 it2.2.1 it2.2.2
          (entryConflictsOnB_false_of_not_true s it2.1 it2.2.1 it2.2.2 hc2)
        rw [hout2]
        simp only [EntryOutcome.conflictD, Option.map_none', Option.getD_none]
        have hne : entryKeyStr it2.1 it2.2.1 ≠ entryKeyStr it.1 it.2.1 := by
          intro he
          have heq : it2 = it := List.inj_on_of_nodup_map hnd hm2 hm he
          rw [heq] at hc2
          exact hc2 hc
        exact (beq_eq_false_iff_ne.mpr hne).symm
    rw [countP_congr_local _ _ l hpoint,
        countP_eq_count_map (fun it2 => entryKeyStr it2.1 it2.2.1)
          (entryKeyStr it.1 it.2.1) l,
        List.count_eq_one_of_mem hnd (List.mem_map_of_mem _ hm)]
  · rw [if_neg hc]
    apply List.countP_eq_zero.mpr
    intro it2 hm2
    simp only [Function.comp_apply]
    by_cases hc2 : entryConflictsOnB s it2.1 it2.2.1 it2.2.2 = true
    · obtain ⟨e2, hg2, hv2, hout2⟩ := stepEntry_conflictD_some cid now s
        it2.1 it2.2.1 it2.2.2 hc2
      rw [hout2]
      simp only [EntryOutcome.conflictD, Option.map_some', Option.getD_some,
        Bool.and_eq_true, beq_iff_eq, not_and]
      intro _ he
      have heq : it2 = it := List.inj_on_of_nodup_map hnd hm2 hm he
      rw [heq] at hc2
      exact hc hc2
    · obtain ⟨e2, hout2⟩ := stepEntry_applied_of_not_conflict cid now s
        it2.1 it2.2.1 it2.2.2
        (entryConflictsOnB_false_of_not_true s it2.1 it2.2.1 it2.2.2 hc2)
      rw [hout2]
      simp [EntryOutcome.conflictD]

/-- Claim C2: for an update batch with per-entity distinct identities and no
redundant tombstone deletes, every non-conflicting entity is applied, stored
and listed in appliedConfig or appliedDays, every conflicting entity keeps
exactly the stored record it had before the batch and produces exactly one
conflict descriptor, and a batch with at least one conflict reports
success = false. -/
theorem C2_partial_success (s : Store) (b : Batch) (now : Nat)
    (hndc : (b.config.map (fun i => i.id)).Nodup)
    (hndd : (b.days.map (fun it => entryKeyStr it.1 it.2.1)).Nodup)
    (hnoop : ∀ inc ∈ b.config, tombstoneDeleteB s inc = false) :
    (∀ inc ∈ b.config,
       (conflictsOnB s inc = true →
          getTracker (processBatch s b now).1 inc.id = getTracker s inc.id ∧
          (processBatch s b now).2.conflicts.countP
            (fun dsc => dsc.entityType == ("tracker") && dsc.entityId == inc.id) = 1) ∧
       (conflictsOnB s inc = false →
          ∃ r, (inc.id, r) ∈ (processBatch s b now).2.appliedConfig ∧
            getTracker (processBatch s b now).1 inc.id = some r ∧
            (processBatch s b now).2.conflicts.countP
              (fun dsc => dsc.entityType == ("tracker") && dsc.entityId == inc.id) = 0)) ∧
    (∀ it ∈ b.days,
       (entryConflictsOnB s it.1 it.2.1 it.2.2 = true →
          getEntry (processBatch s b now).1 it.1 it.2.1 = getEntry s it.1 it.2.1 ∧
          (processBatch s b now).2.conflicts.countP
            (fun dsc => dsc.entityType == ("entry") &&
              dsc.entityId == entryKeyStr it.1 it.2.1) = 1) ∧
       (entryConflictsOnB s it.1 it.2.1 it.2.2 = false →
          ∃ e, ((it.1, it.2.1), e) ∈ (processBatch s b now).2.appliedDays ∧
            getEntry (processBatch s b now).1 it.1 it.2.1 = some e ∧
            (processBatch s b now).2.conflicts.countP
              (fun dsc => dsc.entityType == ("entry") &&
                dsc.entityId == entryKeyStr it.1 it.2.1) = 0)) ∧
    ((processBatch s b now).2.conflicts ≠ [] →
       (processBatch s b now).2.success = false) := by
  have hndd2 : ((b.days.map (fun it => (it.1, it.2.1))).map
      (fun k => entryKeyStr k.1 k.2)).Nodup := by
    rw [List.map_map]
    exact hndd
  have hraw : (b.days.map (fun it => (it.1, it.2.1))).Nodup :=
    List.Nodup.of_map _ hndd2
  have houtT : (runTrackers b.clientId now s b.config).2 =
      b.config.map (fun inc => (stepTracker b.clientId now s inc).2) :=
    runTrackers_outcomes b.clientId now b.config s hndc
  have hentry_eq : ∀ it : Nat × String × Fields,
      (stepEntry b.clientId now (runTrackers b.clientId now s b.config).1
        it.1 it.2.1 it.2.2).2 =
      (stepEntry b.clientId now s it.1 it.2.1 it.2.2).2 :=
    fun it => stepEntry_outcome_congr _ _ _ _ _ _ _
      (getEntry_runTrackers b.clientId now b.config s it.1 it.2.1)
  have houtE : (runEntries b.clientId now
      (runTrackers b.clientId now s b.config).1 b.days).2 =
      b.days.map (fun it => (stepEntry b.clientId now s it.1 it.2.1 it.2.2).2) := by
    rw [runEntries_outcomes b.clientId now b.days _ hraw]
    exact List.map_congr_left (fun it _ => hentry_eq it)
  have hconf : (processBatch s b now).2.conflicts =
      (b.config.map (fun inc => (stepTracker b.clientId now s inc).2)).filterMap
        TrackerOutcome.conflictD ++
      (b.days.map (fun it => (stepEntry b.clientId now s it.1 it.2.1 it.2.2).2)).filterMap
        EntryOutcome.conflictD := by
    rw [processBatch_conflicts, houtT, houtE]
  refine ⟨?_, ?_, ?_⟩
  · intro inc hm
    constructor
    · intro hc
      obtain ⟨t2, hg2, hd2, hv2, hout2⟩ :=
        stepTracker_conflictD_some b.clientId now s inc hc
      constructor
      · rw [processBatch_getTracker]
        exact (getTracker_runTrackers_mem b.clientId now b.config s hndc inc hm).2
          (fun i r ha => by
            rw [hout2] at ha
            exact TrackerOutcome.noConfusion ha)
      · rw [hconf, List.countP_append,
            trackerPart_count b.clientId now s b.config hndc hnoop inc hm,
            entryPart_zero_for_tracker b.clientId now s b.days inc.id,
            if_pos hc]
    · intro hc
      obtain ⟨r, hout2⟩ := stepTracker_applied_of_not_conflict b.clientId now s inc
        hc (hnoop inc hm)
      refine ⟨r, ?_, ?_, ?_⟩
      · rw [processBatch_appliedConfig, houtT]
        apply List.mem_filterMap.mpr
        exact ⟨TrackerOutcome.applied inc.id r,
          by
            apply List.mem_map.mpr
            exact ⟨inc, hm, hout2⟩,
          rfl⟩
      · rw [processBatch_getTracker]
        exact (getTracker_runTrackers_mem b.clientId now b.config s hndc inc hm).1
          inc.id r hout2
      · rw [hconf, List.countP_append,
            trackerPart_count b.clientId now s b.config hndc hnoop inc hm,
            entryPart_zero_for_tracker b.clientId now s b.days inc.id,
            if_neg (by rw [hc]; exact Bool.false_ne_true)]
  · intro it hm
    have hgetmid : getEntry (runTrackers b.clientId now s b.config).1 it.1 it.2.1 =
        getEntry s it.1 it.2.1 :=
      getEntry_runTrackers b.clientId now b.config s it.1 it.2.1
    constructor
    · intro hc
      obtain ⟨e2, hg2, hv2, hout2⟩ :=
        stepEntry_conflictD_some b.clientId now s it.1 it.2.1 it.2.2 hc
      constructor
      · rw [processBatch_getEntry]
        have hmem := (getEntry_runEntries_mem b.clientId now b.days
          (runTrackers b.clientId now s b.config).1 hraw it hm).2
          (fun d2 tid2 e ha => by
            rw [hentry_eq it, hout2] at ha
            exact EntryOutcome.noConfusion ha)
        rw [hmem]
        exact hgetmid
      · rw [hconf, List.countP_append,
            trackerPart_zero_for_entry b.clientId now s b.config (entryKeyStr it.1 it.2.1),
            entryPart_count b.clientId now s b.days hndd it hm,
            if_pos hc]
    · intro hc
      have hcmid : entryConflictsOnB (runTrackers b.clientId now s b.config).1
          it.1 it.2.1 it.2.2 = false := by
        rw [entryConflictsOnB_congr _ s it.1 it.2.1 it.2.2 hgetmid]
        exact hc
      obtain ⟨e, hout2⟩ := stepEntry_applied_of_not_conflict b.clientId now
        (runTrackers b.clientId now s b.config).1 it.1 it.2.1 it.2.2 hcmid
      refine ⟨e, ?_, ?_, ?_⟩
      · rw [processBatch_appliedDays,
            runEntries_outcomes b.clientId now b.days _ hraw]
        apply List.mem_filterMap.mpr
        exact ⟨EntryOutcome.applied it.1 it.2.1 e,
          by
            apply List.mem_map.mpr
            exact ⟨it, hm, hout2⟩,
          rfl⟩
      · rw [processBatch_getEntry]
        exact (getEntry_runEntries_mem b.clientId now b.days
          (runTrackers b.clientId now s b.config).1 hraw it hm).1
          it.1 it.2.1 e hout2
      · rw [hconf, List.countP_append,
            trackerPart_zero_for_entry b.clientId now s b.config (entryKeyStr it.1 it.2.1),
            entryPart_count b.clientId now s b.days hndd it hm,
            if_neg (by rw [hc]; exact Bool.false_ne_true)]
  · intro hne
    rw [processBatch_success]
    cases hl : (processBatch s b now).2.conflicts with
    | nil => exact absurd hl hne
    | cons a l2 => rfl

/-- Witness for C2: a batch touching tracker t1 with a stale base version and
tracker t2 with the current one leaves t1 unchanged with exactly one conflict
descriptor, applies and stores t2, and reports success = false. -/
theorem C2_partial_success_witness :
    conflictsOnB
      (putTracker (putTracker emptyStore ("t2") ⟨[], 1, ("c"), 1, false⟩)
        ("t1") ⟨[], 2, ("c"), 1, false⟩)
      ⟨("t1"), [(("_baseVersion"), Val.num 1)]⟩ = true ∧
    conflictsOnB
      (putTracker (putTracker emptyStore ("t2") ⟨[], 1, ("c"), 1, false⟩)
        ("t1") ⟨[], 2, ("c"), 1, false⟩)
      ⟨("t2"), [(("_baseVersion"), Val.num 1)]⟩ = false ∧
    getTracker (processBatch
        (putTracker (putTracker emptyStore ("t2") ⟨[], 1, ("c"), 1, false⟩)
          ("t1") ⟨[], 2, ("c"), 1, false⟩)
        ⟨("c2"), [⟨("t1"), [(("_baseVersion"), Val.num 1)]⟩,
                  ⟨("t2"), [(("_baseVersion"), Val.num 1)]⟩], []⟩ 9).1 ("t1") =
      getTracker (putTracker (putTracker emptyStore ("t2") ⟨[], 1, ("c"), 1, false⟩)
        ("t1") ⟨[], 2, ("c"), 1, false⟩) ("t1") ∧
    (processBatch
        (putTracker (putTracker emptyStore ("t2") ⟨[], 1, ("c"), 1, false⟩)
          ("t1") ⟨[], 2, ("c"), 1, false⟩)
        ⟨("c2"), [⟨("t1"), [(("_baseVersion"), Val.num 1)]⟩,
                  ⟨("t2"), [(("_baseVersion"), Val.num 1)]⟩], []⟩ 9).2.conflicts.countP
      (fun dsc => dsc.entityType == ("tracker") && dsc.entityId == ("t1")) = 1 ∧
    (∃ r, (("t2"), r) ∈ (processBatch
        (putTracker (putTracker emptyStore ("t2") ⟨[], 1, ("c"), 1, false⟩)
          ("t1") ⟨[], 2, ("c"), 1, false⟩)
        ⟨("c2"), [⟨("t1"), [(("_baseVersion"), Val.num 1)]⟩,
                  ⟨("t2"), [(("_baseVersion"), Val.num 1)]⟩], []⟩ 9).2.appliedConfig ∧
       getTracker (processBatch
        (putTracker (putTracker emptyStore ("t2") ⟨[], 1, ("c"), 1, false⟩)
          ("t1") ⟨[], 2, ("c"), 1, false⟩)
        ⟨("c2"), [⟨("t1"), [(("_baseVersion"), Val.num 1)]⟩,
                  ⟨("t2"), [(("_baseVersion"), Val.num 1)]⟩], []⟩ 9).1 ("t2") = some r) ∧
    (processBatch
        (putTracker (putTracker emptyStore ("t2") ⟨[], 1, ("c"), 1, false⟩)
          ("t1") ⟨[], 2, ("c"), 1, false⟩)
        ⟨("c2"), [⟨("t1"), [(("_baseVersion"), Val.num 1)]⟩,
                  ⟨("t2"), [(("_baseVersion"), Val.num 1)]⟩], []⟩ 9).2.success = false := by
  have h := C2_partial_success
    (putTracker (putTracker emptyStore ("t2") ⟨[], 1, ("c"), 1, false⟩)
      ("t1") ⟨[], 2, ("c"), 1, false⟩)
    ⟨("c2"), [⟨("t1"), [(("_baseVersion"), Val.num 1)]⟩,
              ⟨("t2"), [(("_baseVersion"), Val.num 1)]⟩], []⟩ 9
    (by decide) (by decide) (by decide)
  refine ⟨by decide, by decide, ?_, ?_, ?_, ?_⟩
  · exact ((h.1 ⟨("t1"), [(("_baseVersion"), Val.num 1)]⟩ (by decide)).1 (by decide)).1
  · exact ((h.1 ⟨("t1"), [(("_baseVersion"), Val.num 1)]⟩ (by decide)).1 (by decide)).2
  · obtain ⟨r, h1, h2, h3⟩ :=
      (h.1 ⟨("t2"), [(("_baseVersion"), Val.num 1)]⟩ (by decide)).2 (by decide)
    exact ⟨r, h1, h2⟩
  · exact h.2.2 (by decide)

theorem dot_ne_digitChar (n : Nat) : ('.') ≠ Nat.digitChar (n % 10) := by
  have h10 : ∀ m < 10, ('.') ≠ Nat.digitChar m := by decide
  exact h10 _ (Nat.mod_lt _ (by norm_num))

theorem clockTick_ge (last sys : Nat) : last ≤ clockTick last sys := by
  by_cases h : sys < last
  · simp [clockTick, h]
  · simp only [clockTick, if_neg h]
    omega

theorem clockRun_chain (last : Nat) (l : List Nat) :
    List.Chain (fun a b => a ≤ b) last (clockRun last l) := by
  induction l generalizing last with
  | nil => exact List.Chain.nil
  | cons sys rest ih =>
      simp only [clockRun]
      exact List.Chain.cons (clockTick_ge last sys) (ih _)

/-- Claim C9: every timestamp the modelled clock produces is the canonical
UTC string form: a 19-character ISO-8601 core followed by a literal trailing
Z, with no fractional-seconds dot anywhere; and the clock is non-decreasing
within a process: a reading never goes below the last issued value, when
system time moves backward the clock returns the last issued value, and any
run of readings is a non-decreasing chain. -/
theorem C9_clock_canonical_monotone (d : DateTimeParts) (last sys : Nat)
    (l : List Nat) :
    (getUtcNow d).data = (isoCore d).data ++ [('Z')] ∧
    (isoCore d).length = 19 ∧
    (getUtcNow d).length = 20 ∧
    ('.') ∉ (getUtcNow d).data ∧
    (getUtcNow d).data.getLast? = some ('Z') ∧
    (sys < last → clockTick last sys = last) ∧
    List.Chain (fun a b => a ≤ b) last (clockRun last l) := by
  refine ⟨rfl, rfl, rfl, ?_, ?_, fun h => if_pos h, clockRun_chain last l⟩
  · intro hmem
    simp only [getUtcNow, isoChars, pad2Chars, pad4Chars, List.cons_append,
      List.nil_append, List.mem_cons, List.not_mem_nil, or_false] at hmem
    rcases hmem with h | h | h | h | h | h | h | h | h | h | h | h | h | h | h |
      h | h | h | h | h <;>
      first
        | exact dot_ne_digitChar _ h
        | exact absurd h (by decide)
  · simp only [getUtcNow]
    exact List.getLast?_concat _

/-- Witness for C9: with the last issued reading at 10 and system time moved
back to 5, the clock returns 10; and a concrete timestamp has the canonical
20-character shape. -/
theorem C9_clock_canonical_monotone_witness :
    5 < 10 ∧ clockTick 10 5 = 10 ∧
    (getUtcNow ⟨2026, 10, 12, 8, 30, 0⟩).length = 20 := by
  have h := C9_clock_canonical_monotone ⟨2026, 10, 12, 8, 30, 0⟩ 10 5 []
  exact ⟨by decide, h.2.2.2.2.2.1 (by decide), h.2.2.1⟩

theorem toLower_whitespace (c : Char) (h : c.isWhitespace = true) :
    Char.toLower c = c := by
  simp only [Char.isWhitespace, Bool.or_eq_true, decide_eq_true_eq] at h
  rcases h with ((h | h) | h) | h <;> rw [h] <;> decide

theorem pyLower_all_whitespace (q : List Char) (h : q.all Char.isWhitespace = true) :
    pyLower q = q := by
  unfold pyLower
  have h2 := List.all_eq_true.mp h
  calc q.map Char.toLower
      = q.map id := List.map_congr_left (fun c hc => toLower_whitespace c (h2 c hc))
    _ = q := List.map_id q

theorem pyStrip_all_whitespace (q : List Char) (h : q.all Char.isWhitespace = true) :
    pyStrip q = [] := by
  unfold pyStrip
  have h2 : q.dropWhile Char.isWhitespace = [] :=
    List.dropWhile_eq_nil_iff.mpr (fun c hc => List.all_eq_true.mp h c hc)
  rw [h2]
  rfl

/-- Claim C10: under strict validation, execute_safe_query runs a query
against the database exactly when, after lowercasing and stripping, the text
begins with select or with, no word token anywhere in the text (string
literals included) is one of the eleven forbidden keywords, and no semicolon
occurs outside single or double quotes; for every other query validate_query
raises and the error propagates, so no query reaches the database.  The
executed text is the query with the row limit applied. -/
theorem C10_validator_gate (q : List Char) (m : Nat) :
    (validateQuery q = Except.ok () ↔
      (allowedStatements.any (fun p => pyStartsWith (pyStrip (pyLower q)) p) = true ∧
       (queryWords (pyStrip (pyLower q))).any
         (fun w => decide (w ∈ forbiddenKeywords)) = false ∧
       containsMultipleStatements q = false)) ∧
    executeSafeQuery true m q =
      (match validateQuery q with
       | Except.ok _ => Except.ok (addRowLimit q m)
       | Except.error e => Except.error e) := by
  constructor
  · unfold validateQuery
    by_cases h0 : q.all Char.isWhitespace = true
    · rw [if_pos h0]
      constructor
      · intro h
        exact Except.noConfusion h
      · rintro ⟨h1, h2, h3⟩
        rw [pyLower_all_whitespace q h0, pyStrip_all_whitespace q h0] at h1
        exact absurd h1 (by decide)
    · rw [if_neg h0]
      rcases hA : allowedStatements.any (fun p => pyStartsWith (pyStrip (pyLower q)) p) <;>
        rcases hB : (queryWords (pyStrip (pyLower q))).any
          (fun w => decide (w ∈ forbiddenKeywords)) <;>
        rcases hC : containsMultipleStatements q <;>
        simp
  · unfold executeSafeQuery
    cases hv : validateQuery q with
    | ok u => simp [hv]
    | error e => simp [hv]

/-- A valid concrete query passes the gate and an update statement is
rejected: evaluation points for C10. -/
theorem C10_validator_gate_examples :
    executeSafeQuery true 1000 (("select * from trackers").data) =
      Except.ok (("select * from trackers LIMIT 1000").data) ∧
    validateQuery (("select * from trackers where name = 'drop'").data) =
      Except.error ("Forbidden keywords found") ∧
    validateQuery (("select 1; drop table trackers").data) =
      Except.error ("Forbidden keywords found") ∧
    validateQuery (("select (';')").data) = Except.ok () ∧
    validateQuery (("select 1 ; select 2").data) =
      Except.error ("Multiple statements not allowed") ∧
    validateQuery (("pragma journal_mode").data) =
      Except.error ("Only SELECT, WITH queries are allowed for security") := by
  refine ⟨?_, ?_, ?_, ?_, ?_, ?_⟩ <;> rfl
